import Mathlib

/-!
Verification of the Normalize_Excel normalization and extraction engine.

The worksheet is embedded as a list of rows of optional strings: `none`
models a Python `None` cell, `some s` a string scalar.  All coordinates are
1-indexed, as in openpyxl; reading an absent cell yields `none` and writing
outside the populated area is a no-op, matching how the source only ever
touches in-range cells.  Every source function is translated as a pure
function; worksheet mutation becomes explicit state passing, so the
non-mutation clauses of the specification hold by construction for the
functions embedded as read-only.
-/

/-- A cell value: `none` models a Python `None`, `some s` a string scalar. -/
abbrev CellValue := Option String

/-- A grid: a list of rows, each row a list of cells. -/
abbrev Grid := List (List CellValue)

/-- The cells physically present in row `r` (1-indexed), as iterating `ws[row]` does. -/
def rowCells (g : Grid) (r : Nat) : List CellValue :=
  if r = 0 then [] else (g[r - 1]?).getD []

/-- Value of the cell at `(r, c)`, 1-indexed; absent cells read as `None`. -/
def cellVal (g : Grid) (r c : Nat) : CellValue :=
  if c = 0 then none else ((rowCells g r)[c - 1]?).getD none

/-- The `value not in (None, "")` test used by the source for non-emptiness. -/
def filled : CellValue → Bool
  | none => false
  | some s => !(s == "")

/-- Row `r` contains a non-empty value (the `any(...)` of `get_last_row_with_value`). -/
def rowHasValue (g : Grid) (r : Nat) : Bool :=
  (rowCells g r).any filled

/-- `ws.max_row` of the embedded grid. -/
def maxRow (g : Grid) : Nat := g.length

/-- `ws.max_column` of the embedded grid: the widest physical row. -/
def maxCol (g : Grid) : Nat := g.foldr (fun row acc => max row.length acc) 0

/-- Column `c` contains a non-empty value in some row `1..max_row`
    (the inner `any(...)` of `get_last_col_with_value`). -/
def colHasValue (g : Grid) (c : Nat) : Bool :=
  (List.range' 1 g.length).any fun r => filled (cellVal g r c)

/-- The countdown scan of `get_last_row_with_value`: first index `≤ n` whose row
    holds a non-empty value, else 0. -/
def lastRowAux (g : Grid) : Nat → Nat
  | 0 => 0
  | n + 1 => if rowHasValue g (n + 1) then n + 1 else lastRowAux g n

/-- `get_last_row_with_value(ws)` from `lib/utils.py`. -/
def get_last_row_with_value (g : Grid) : Nat := lastRowAux g g.length

/-- The countdown scan of `get_last_col_with_value`. -/
def lastColAux (g : Grid) : Nat → Nat
  | 0 => 0
  | n + 1 => if colHasValue g (n + 1) then n + 1 else lastColAux g n

/-- `get_last_col_with_value(ws)` from `lib/utils.py`. -/
def get_last_col_with_value (g : Grid) : Nat := lastColAux g (maxCol g)

/-- `validate_header_count(ws)` from `lib/excel_parser.py`: requires at least
    5 populated columns and 3 populated rows. -/
def validate_header_count (g : Grid) : Bool :=
  let last_col := get_last_col_with_value g
  let last_row := get_last_row_with_value g
  if last_col < 5 then false
  else if last_row < 3 then false
  else true

-- ------------------------------------------------------------------
-- Lemmas on the bounds finders
-- ------------------------------------------------------------------

theorem lastRowAux_le (g : Grid) (n : Nat) : lastRowAux g n ≤ n := by
  induction n with
  | zero => simp [lastRowAux]
  | succ m ih =>
    simp only [lastRowAux]
    split
    · exact Nat.le_refl _
    · exact Nat.le_trans ih (Nat.le_succ m)

theorem lastRowAux_zero (g : Grid) (n : Nat) (h : lastRowAux g n = 0) :
    ∀ r, 1 ≤ r → r ≤ n → rowHasValue g r = false := by
  induction n with
  | zero => intro r h1 h2; omega
  | succ m ih =>
    intro r h1 h2
    simp only [lastRowAux] at h
    by_cases hv : rowHasValue g (m + 1) = true
    · simp [hv] at h
    · simp [hv] at h
      rcases Nat.lt_or_ge r (m + 1) with hr | hr
      · exact ih h r h1 (by omega)
      · have : r = m + 1 := by omega
        subst this
        simpa using hv

theorem lastRowAux_pos (g : Grid) (n : Nat) (h : lastRowAux g n ≠ 0) :
    rowHasValue g (lastRowAux g n) = true := by
  induction n with
  | zero => simp [lastRowAux] at h
  | succ m ih =>
    simp only [lastRowAux] at h ⊢
    by_cases hv : rowHasValue g (m + 1) = true
    · simp [hv]
    · simp [hv] at h ⊢
      exact ih h

theorem lastRowAux_above (g : Grid) (n : Nat) :
    ∀ r, lastRowAux g n < r → r ≤ n → rowHasValue g r = false := by
  induction n with
  | zero => intro r h1 h2; omega
  | succ m ih =>
    intro r h1 h2
    simp only [lastRowAux] at h1
    by_cases hv : rowHasValue g (m + 1) = true
    · simp [hv] at h1; omega
    · simp [hv] at h1
      rcases Nat.lt_or_ge r (m + 1) with hr | hr
      · exact ih r h1 (by omega)
      · have : r = m + 1 := by omega
        subst this
        simpa using hv

theorem rowHasValue_beyond (g : Grid) (r : Nat) (h : g.length < r) :
    rowHasValue g r = false := by
  have hr : r ≠ 0 := by omega
  have hn : g[r - 1]? = none := List.getElem?_eq_none_iff.mpr (by omega)
  simp [rowHasValue, rowCells, hr, hn]

theorem lastColAux_le (g : Grid) (n : Nat) : lastColAux g n ≤ n := by
  induction n with
  | zero => simp [lastColAux]
  | succ m ih =>
    simp only [lastColAux]
    split
    · exact Nat.le_refl _
    · exact Nat.le_trans ih (Nat.le_succ m)

theorem lastColAux_zero (g : Grid) (n : Nat) (h : lastColAux g n = 0) :
    ∀ c, 1 ≤ c → c ≤ n → colHasValue g c = false := by
  induction n with
  | zero => intro c h1 h2; omega
  | succ m ih =>
    intro c h1 h2
    simp only [lastColAux] at h
    by_cases hv : colHasValue g (m + 1) = true
    · simp [hv] at h
    · simp [hv] at h
      rcases Nat.lt_or_ge c (m + 1) with hc | hc
      · exact ih h c h1 (by omega)
      · have : c = m + 1 := by omega
        subst this
        simpa using hv

theorem lastColAux_pos (g : Grid) (n : Nat) (h : lastColAux g n ≠ 0) :
    colHasValue g (lastColAux g n) = true := by
  induction n with
  | zero => simp [lastColAux] at h
  | succ m ih =>
    simp only [lastColAux] at h ⊢
    by_cases hv : colHasValue g (m + 1) = true
    · simp [hv]
    · simp [hv] at h ⊢
      exact ih h

theorem lastColAux_above (g : Grid) (n : Nat) :
    ∀ c, lastColAux g n < c → c ≤ n → colHasValue g c = false := by
  induction n with
  | zero => intro c h1 h2; omega
  | succ m ih =>
    intro c h1 h2
    simp only [lastColAux] at h1
    by_cases hv : colHasValue g (m + 1) = true
    · simp [hv] at h1; omega
    · simp [hv] at h1
      rcases Nat.lt_or_ge c (m + 1) with hc | hc
      · exact ih c h1 (by omega)
      · have : c = m + 1 := by omega
        subst this
        simpa using hv

theorem length_le_maxCol_of_mem (g : Grid) (row : List CellValue) (hmem : row ∈ g) :
    row.length ≤ maxCol g := by
  induction g with
  | nil => simp at hmem
  | cons hd tl ih =>
    simp only [maxCol, List.foldr_cons]
    rcases List.mem_cons.mp hmem with h | h
    · subst h; exact Nat.le_max_left _ _
    · exact Nat.le_trans (ih h) (Nat.le_max_right _ _)

theorem rowCells_length_le (g : Grid) (r : Nat) :
    (rowCells g r).length ≤ maxCol g := by
  unfold rowCells
  split
  · simp
  · cases hg : g[r - 1]? with
    | none => simp
    | some row =>
      simpa using length_le_maxCol_of_mem g row (List.getElem?_mem hg)

theorem colHasValue_beyond (g : Grid) (c : Nat) (h : maxCol g < c) :
    colHasValue g c = false := by
  simp only [colHasValue, List.any_eq_false]
  intro r _
  have hc : c ≠ 0 := by omega
  have hlen : (rowCells g r)[c - 1]? = none := by
    apply List.getElem?_eq_none_iff.mpr
    have := rowCells_length_le g r
    omega
  simp [cellVal, hc, hlen, filled]

/-- C5: the bounds finders are correct.  When `get_last_row_with_value` returns 0
    every row of the grid is all-empty; otherwise the returned row contains a
    non-empty cell and every row strictly below it is all-empty; symmetrically for
    `get_last_col_with_value` over columns.  Both functions are pure Lean
    functions of the grid, so neither mutates it, by construction. -/
theorem bounds_correct (g : Grid) :
    (get_last_row_with_value g = 0 → ∀ r, rowHasValue g r = false) ∧
    (get_last_row_with_value g ≠ 0 → rowHasValue g (get_last_row_with_value g) = true) ∧
    (∀ r, get_last_row_with_value g < r → rowHasValue g r = false) ∧
    (get_last_col_with_value g = 0 → ∀ c, colHasValue g c = false) ∧
    (get_last_col_with_value g ≠ 0 → colHasValue g (get_last_col_with_value g) = true) ∧
    (∀ c, get_last_col_with_value g < c → colHasValue g c = false) := by
  refine ⟨?_, ?_, ?_, ?_, ?_, ?_⟩
  · intro h r
    rcases Nat.eq_zero_or_pos r with hr | hr
    · subst hr
      simp [rowHasValue, rowCells]
    · rcases Nat.lt_or_ge g.length r with hbig | hsmall
      · exact rowHasValue_beyond g r hbig
      · exact lastRowAux_zero g g.length h r hr hsmall
  · intro h
    exact lastRowAux_pos g g.length h
  · intro r hr
    rcases Nat.lt_or_ge g.length r with hbig | hsmall
    · exact rowHasValue_beyond g r hbig
    · exact lastRowAux_above g g.length r hr hsmall
  · intro h c
    rcases Nat.eq_zero_or_pos c with hc | hc
    · subst hc
      simp only [colHasValue, List.any_eq_false]
      intro r _
      simp [cellVal, filled]
    · rcases Nat.lt_or_ge (maxCol g) c with hbig | hsmall
      · exact colHasValue_beyond g c hbig
      · exact lastColAux_zero g (maxCol g) h c hc hsmall
  · intro h
    exact lastColAux_pos g (maxCol g) h
  · intro c hc
    rcases Nat.lt_or_ge (maxCol g) c with hbig | hsmall
    · exact colHasValue_beyond g c hbig
    · exact lastColAux_above g (maxCol g) c hc hsmall

/-- Witness for C5 on a concrete grid: two populated rows, three populated
    columns; the second row carries the value and the third column is the
    rightmost populated one. -/
theorem bounds_correct_witness :
    rowHasValue [[some "a"], [none, none, some "b"]] 2 = true ∧
    rowHasValue [[some "a"], [none, none, some "b"]] 3 = false ∧
    colHasValue [[some "a"], [none, none, some "b"]] 3 = true ∧
    colHasValue [[some "a"], [none, none, some "b"]] 4 = false := by
  refine ⟨?_, ?_, ?_, ?_⟩
  · exact (bounds_correct [[some "a"], [none, none, some "b"]]).2.1 (by decide)
  · exact (bounds_correct [[some "a"], [none, none, some "b"]]).2.2.1 3 (by decide)
  · exact (bounds_correct [[some "a"], [none, none, some "b"]]).2.2.2.2.1 (by decide)
  · exact (bounds_correct [[some "a"], [none, none, some "b"]]).2.2.2.2.2 4 (by decide)

/-- C6: the structural validator succeeds exactly when the populated area has at
    least 5 columns and at least 3 rows.  `validate_header_count` is embedded as
    a pure function, so it cannot mutate the grid. -/
theorem validate_header_count_correct (g : Grid) :
    validate_header_count g = true ↔
      5 ≤ get_last_col_with_value g ∧ 3 ≤ get_last_row_with_value g := by
  unfold validate_header_count
  constructor
  · intro h
    by_cases hc : get_last_col_with_value g < 5
    · simp [hc] at h
    · by_cases hr : get_last_row_with_value g < 3
      · simp [hc, hr] at h
      · omega
  · intro ⟨h1, h2⟩
    have hc : ¬ get_last_col_with_value g < 5 := by omega
    have hr : ¬ get_last_row_with_value g < 3 := by omega
    simp [hc, hr]

-- ------------------------------------------------------------------
-- Hierarchical extraction (lib/post_process.py)
-- ------------------------------------------------------------------

/-- Drop leading whitespace characters from a character list. -/
def dropLeadingWS : List Char → List Char
  | [] => []
  | c :: cs => if c.isWhitespace then dropLeadingWS cs else c :: cs

/-- Python `str.strip()`: remove leading and trailing whitespace. -/
def pyStrip (s : String) : String :=
  ⟨(dropLeadingWS ((dropLeadingWS s.data).reverse)).reverse⟩

/-- `str(v).strip() if v is not None else ""`: the cleaning applied to the key
    columns, the comment column and the row-2 labels. -/
def strOf (v : CellValue) : String :=
  match v with
  | none => ""
  | some s => pyStrip s

/-- Python `str(v)` on a cell value, used to build dictionary keys from raw
    row-2 cells: `str(None)` is the literal string `"None"`. -/
def keyOf (v : CellValue) : String :=
  match v with
  | none => "None"
  | some s => s

/-- The trimmed version labels of row 2, columns `4 .. last_col - 1`. -/
def versionLabels (g : Grid) : List String :=
  (List.range' 4 (get_last_col_with_value g - 4)).map fun c => strOf (cellVal g 2 c)

/-- `list.index(x)` as an option: index of the first occurrence. -/
def firstIdx (l : List String) (s : String) : Option Nat :=
  match l with
  | [] => none
  | x :: xs => if x = s then some 0 else (firstIdx xs s).map (· + 1)

/-- Resolution of `start_col`: default column 4 on an empty `start_version`,
    else the first index of the label plus the column-4 offset. -/
def resolveStartCol (vr : List String) (sv : String) : Option Nat :=
  if sv = "" then some 4 else (firstIdx vr sv).map (· + 4)

/-- Resolution of `end_col`: default `last_col - 1` on an empty `end_version`,
    else the first index of the label plus the column-4 offset. -/
def resolveEndCol (vr : List String) (ev : String) (lastCol : Nat) : Option Nat :=
  if ev = "" then some (lastCol - 1) else (firstIdx vr ev).map (· + 4)

/-- A per-row mapping: an association list in insertion order, as a Python dict. -/
abbrev RowMap := List (String × String)

/-- Python dict assignment `m[k] = v`: overwrite in place on an existing key,
    else append at the end. -/
def updIns (m : List (String × α)) (k : String) (v : α) : List (String × α) :=
  match m with
  | [] => [(k, v)]
  | (k1, v1) :: t => if k1 = k then (k, v) :: t else (k1, v1) :: updIns t k v

/-- Python `d.setdefault(k, dflt)` followed by mutating the stored value with
    `f`: insertion order is preserved, a fresh key is appended at the end. -/
def modAt (m : List (String × α)) (k : String) (dflt : α) (f : α → α) :
    List (String × α) :=
  match m with
  | [] => [(k, f dflt)]
  | (k1, v1) :: t => if k1 = k then (k1, f v1) :: t else (k1, v1) :: modAt t k dflt f

/-- The nested output dictionary: tech -> node_type -> node_version -> row map. -/
abbrev NestedData := List (String × List (String × List (String × RowMap)))

/-- `data.setdefault(tech, {}).setdefault(node_type, {})[node_version] = m`. -/
def insertTriple (d : NestedData) (t nt nv : String) (m : RowMap) : NestedData :=
  modAt d t [] fun l1 => modAt l1 nt [] fun l2 => updIns l2 nv m

/-- First-match association lookup. -/
def listLookup (m : List (String × α)) (k : String) : Option α :=
  match m with
  | [] => none
  | (k1, v1) :: t => if k1 = k then some v1 else listLookup t k

/-- Lookup through the three nesting levels of the output. -/
def lookup3 (d : NestedData) (t nt nv : String) : Option RowMap :=
  (listLookup d t).bind fun l1 => (listLookup l1 nt).bind fun l2 => listLookup l2 nv

/-- The trimmed key triple (tech, node_type, node_version) of a data row. -/
def tripleOf (g : Grid) (r : Nat) : String × String × String :=
  (strOf (cellVal g r 1), strOf (cellVal g r 2), strOf (cellVal g r 3))

/-- The skip test of `create_hierarchical_json`: a key field is empty after
    trimming, or the three fields are textually equal. -/
def skipRow (g : Grid) (r : Nat) : Bool :=
  let t := strOf (cellVal g r 1)
  let nt := strOf (cellVal g r 2)
  let nv := strOf (cellVal g r 3)
  t = "" || nt = "" || nv = "" || (t = nt && nt = nv)

/-- The `supported_nodes` dict built for one row over the resolved column
    window: each column with a value not in `(None, "")` stores its literal
    value under the `str(...)` of its raw row-2 cell. -/
def rowNodes (g : Grid) (sc ec r : Nat) : RowMap :=
  (List.range' sc (ec + 1 - sc)).foldl
    (fun acc c =>
      if filled (cellVal g r c) then updIns acc (keyOf (cellVal g 2 c)) ((cellVal g r c).getD "")
      else acc)
    []

/-- The per-row mapping actually inserted: `supported_nodes` plus, when it is
    non-empty and the trimmed comment is non-empty, one entry keyed by the
    `str(...)` of the raw row-2 cell of the comment column. -/
def rowFull (g : Grid) (sc ec r : Nat) : RowMap :=
  let ns := rowNodes g sc ec r
  if ns.isEmpty then ns
  else
    let cm := strOf (cellVal g r (get_last_col_with_value g))
    if cm = "" then ns
    else updIns ns (keyOf (cellVal g 2 (get_last_col_with_value g))) cm

/-- One iteration of the data-row loop of `create_hierarchical_json`. -/
def processRow (g : Grid) (sc ec : Nat) (st : NestedData × List Nat) (r : Nat) :
    NestedData × List Nat :=
  if skipRow g r then (st.1, st.2 ++ [r])
  else
    let ns := rowNodes g sc ec r
    if ns.isEmpty then st
    else
      let p := tripleOf g r
      (insertTriple st.1 p.1 p.2.1 p.2.2 (rowFull g sc ec r), st.2)

/-- The data-row index range `3 .. last_row`. -/
def dataRows (g : Grid) : List Nat :=
  List.range' 3 (get_last_row_with_value g - 2)

/-- The failure modes of `create_hierarchical_json`, distinguished by the
    distinct error messages the source prints before returning `False`. -/
inductive ExtractError where
  | HeaderIncomplete
  | VersionNotFound
  | InvalidRange
deriving DecidableEq, Repr

/-- `create_hierarchical_json` from `lib/post_process.py`: header validation,
    version-window resolution, then the fold over the data rows producing the
    nested mapping and the list of skipped row indices.  On failure no mapping
    is produced at all. -/
def create_hierarchical_json (g : Grid) (sv ev : String) :
    Except ExtractError (NestedData × List Nat) :=
  let vr := versionLabels g
  if "" ∈ vr then .error .HeaderIncomplete
  else
    match resolveStartCol vr sv with
    | none => .error .VersionNotFound
    | some sc =>
      match resolveEndCol vr ev (get_last_col_with_value g) with
      | none => .error .VersionNotFound
      | some ec =>
        if ec ≤ sc then .error .InvalidRange
        else .ok ((dataRows g).foldl (processRow g sc ec) ([], []))

-- ------------------------------------------------------------------
-- Lemmas on the extraction
-- ------------------------------------------------------------------

theorem firstIdx_eq_none_iff (l : List String) (s : String) :
    firstIdx l s = none ↔ s ∉ l := by
  induction l with
  | nil => simp [firstIdx]
  | cons x xs ih =>
    simp only [firstIdx]
    by_cases hx : x = s
    · simp [hx]
    · simp only [hx, if_false, List.mem_cons, Option.map_eq_none', ih]
      constructor
      · intro hn hc
        rcases hc with hc | hc
        · exact hx hc.symm
        · exact hn hc
      · intro hn hc
        exact hn (Or.inr hc)

theorem resolveStartCol_eq_none_iff (vr : List String) (sv : String) :
    resolveStartCol vr sv = none ↔ sv ≠ "" ∧ sv ∉ vr := by
  unfold resolveStartCol
  by_cases hsv : sv = ""
  · simp [hsv]
  · simp only [hsv, if_false, ne_eq, not_false_eq_true, true_and, Option.map_eq_none']
    exact firstIdx_eq_none_iff vr sv

theorem resolveEndCol_eq_none_iff (vr : List String) (ev : String) (lc : Nat) :
    resolveEndCol vr ev lc = none ↔ ev ≠ "" ∧ ev ∉ vr := by
  unfold resolveEndCol
  by_cases hev : ev = ""
  · simp [hev]
  · simp only [hev, if_false, ne_eq, not_false_eq_true, true_and, Option.map_eq_none']
    exact firstIdx_eq_none_iff vr ev

theorem foldl_processRow_skipped (g : Grid) (sc ec : Nat) (R : List Nat) :
    ∀ d s, ((R.foldl (processRow g sc ec) (d, s)).2 = s ++ R.filter (skipRow g)) := by
  induction R with
  | nil => intro d s; simp
  | cons r rest ih =>
    intro d s
    simp only [List.foldl_cons, List.filter_cons]
    by_cases hr : skipRow g r = true
    · simp only [hr, if_true]
      have step : processRow g sc ec (d, s) r = (d, s ++ [r]) := by
        simp [processRow, hr]
      rw [step, ih]
      simp
    · simp only [eq_false_of_ne_true hr, Bool.false_eq_true, if_false]
      have step2 : (processRow g sc ec (d, s) r).2 = s := by
        simp only [processRow, hr]
        simp only [Bool.false_eq_true, if_false]
        by_cases hn : (rowNodes g sc ec r).isEmpty = true
        · simp [hn]
        · simp [hn]
      calc (rest.foldl (processRow g sc ec) (processRow g sc ec (d, s) r)).2
          = (processRow g sc ec (d, s) r).2 ++ rest.filter (skipRow g) := ih _ _
        _ = s ++ rest.filter (skipRow g) := by rw [step2]

theorem listLookup_updIns_self (m : List (String × α)) (k : String) (v : α) :
    listLookup (updIns m k v) k = some v := by
  induction m with
  | nil => simp [updIns, listLookup]
  | cons p t ih =>
    obtain ⟨k1, v1⟩ := p
    simp only [updIns]
    by_cases hk : k1 = k
    · simp [hk, listLookup]
    · simp [hk, listLookup, ih]

theorem listLookup_updIns_ne (m : List (String × α)) (k k2 : String) (v : α)
    (h : k2 ≠ k) : listLookup (updIns m k v) k2 = listLookup m k2 := by
  induction m with
  | nil => simp [updIns, listLookup, Ne.symm h]
  | cons p t ih =>
    obtain ⟨k1, v1⟩ := p
    simp only [updIns]
    by_cases hk : k1 = k
    · subst hk
      simp [listLookup, Ne.symm h]
    · simp only [hk, if_false, listLookup]
      by_cases hk2 : k1 = k2
      · simp [hk2]
      · simp [hk2, ih]

theorem listLookup_modAt_self (m : List (String × α)) (k : String) (dflt : α) (f : α → α) :
    listLookup (modAt m k dflt f) k = some (f ((listLookup m k).getD dflt)) := by
  induction m with
  | nil => simp [modAt, listLookup]
  | cons p t ih =>
    obtain ⟨k1, v1⟩ := p
    simp only [modAt]
    by_cases hk : k1 = k
    · simp [hk, listLookup]
    · simp [hk, listLookup, ih]

theorem listLookup_modAt_ne (m : List (String × α)) (k k2 : String) (dflt : α) (f : α → α)
    (h : k2 ≠ k) : listLookup (modAt m k dflt f) k2 = listLookup m k2 := by
  induction m with
  | nil => simp [modAt, listLookup, Ne.symm h]
  | cons p t ih =>
    obtain ⟨k1, v1⟩ := p
    simp only [modAt]
    by_cases hk : k1 = k
    · subst hk
      simp [listLookup, Ne.symm h]
    · simp only [hk, if_false, listLookup]
      by_cases hk2 : k1 = k2
      · simp [hk2]
      · simp [hk2, ih]

theorem lookup3_insertTriple_self (d : NestedData) (t nt nv : String) (m : RowMap) :
    lookup3 (insertTriple d t nt nv m) t nt nv = some m := by
  unfold insertTriple lookup3
  rw [listLookup_modAt_self]
  simp only [Option.some_bind]
  rw [listLookup_modAt_self]
  simp only [Option.some_bind]
  rw [listLookup_updIns_self]

theorem lookup3_insertTriple_ne (d : NestedData) (t nt nv t2 nt2 nv2 : String) (m : RowMap)
    (h : ¬(t = t2 ∧ nt = nt2 ∧ nv = nv2)) :
    lookup3 (insertTriple d t nt nv m) t2 nt2 nv2 = lookup3 d t2 nt2 nv2 := by
  unfold insertTriple lookup3
  by_cases ht : t = t2
  · subst ht
    rw [listLookup_modAt_self]
    simp only [Option.some_bind]
    by_cases hnt : nt = nt2
    · subst hnt
      rw [listLookup_modAt_self]
      simp only [Option.some_bind]
      have hnv : nv2 ≠ nv := by
        intro hc
        exact h ⟨rfl, rfl, hc.symm⟩
      rw [listLookup_updIns_ne _ _ _ _ hnv]
      cases hl : listLookup d t with
      | none => simp [listLookup]
      | some l1 =>
        simp only [Option.getD_some, Option.some_bind]
        cases hl2 : listLookup l1 nt with
        | none => simp [listLookup]
        | some l2 => simp
    · rw [listLookup_modAt_ne _ _ _ _ _ (Ne.symm hnt)]
      cases hl : listLookup d t with
      | none =>
        simp only [Option.getD_none, Option.some_bind, Option.none_bind]
        simp [listLookup, Ne.symm hnt]
      | some l1 =>
        simp
  · rw [listLookup_modAt_ne _ _ _ _ _ (Ne.symm ht)]

/-- A row contributes an entry at key path `(t, nt, nv)`: it is not skipped, its
    version-window mapping is non-empty, and its trimmed triple is `(t, nt, nv)`. -/
def contrib (g : Grid) (sc ec : Nat) (t nt nv : String) (r : Nat) : Bool :=
  !skipRow g r && !(rowNodes g sc ec r).isEmpty && decide (tripleOf g r = (t, nt, nv))

theorem getLast?_cons_of_ne_nil (x : α) (l : List α) (h : l ≠ []) :
    (x :: l).getLast? = l.getLast? := by
  cases l with
  | nil => exact absurd rfl h
  | cons y t => simp [List.getLast?_cons_cons]

theorem foldl_processRow_lookup3 (g : Grid) (sc ec : Nat) (t nt nv : String) (R : List Nat) :
    ∀ d s, lookup3 ((R.foldl (processRow g sc ec) (d, s)).1) t nt nv =
      match (R.filter (contrib g sc ec t nt nv)).getLast? with
      | some r => some (rowFull g sc ec r)
      | none => lookup3 d t nt nv := by
  induction R with
  | nil => intro d s; simp
  | cons r rest ih =>
    intro d s
    simp only [List.foldl_cons, List.filter_cons]
    rw [ih]
    cases hrest : (rest.filter (contrib g sc ec t nt nv)).getLast? with
    | some r2 =>
      have hne : rest.filter (contrib g sc ec t nt nv) ≠ [] := by
        intro hc
        rw [hc] at hrest
        cases hrest
      by_cases hc : contrib g sc ec t nt nv r = true
      · simp only [hc, if_true]
        rw [getLast?_cons_of_ne_nil _ _ hne, hrest]
      · simp only [eq_false_of_ne_true hc, Bool.false_eq_true, if_false, hrest]
    | none =>
      have hnil : rest.filter (contrib g sc ec t nt nv) = [] := by
        cases hl : rest.filter (contrib g sc ec t nt nv) with
        | nil => rfl
        | cons a b =>
          rw [hl] at hrest
          exfalso
          have : (a :: b).getLast?.isSome = true := by
            rw [List.getLast?_isSome]
            simp
          rw [hrest] at this
          cases this
      by_cases hcr : contrib g sc ec t nt nv r = true
      · simp only [hcr, if_true, hnil]
        simp only [List.getLast?_singleton]
        have hskip : skipRow g r = false := by
          unfold contrib at hcr
          simp only [Bool.and_eq_true, Bool.not_eq_true'] at hcr
          exact hcr.1.1
        have hnsne : (rowNodes g sc ec r).isEmpty = false := by
          unfold contrib at hcr
          simp only [Bool.and_eq_true, Bool.not_eq_true'] at hcr
          exact hcr.1.2
        have htr : tripleOf g r = (t, nt, nv) := by
          unfold contrib at hcr
          simp only [Bool.and_eq_true, decide_eq_true_eq] at hcr
          exact hcr.2
        simp only [processRow, hskip, Bool.false_eq_true, if_false, hnsne]
        rw [htr]
        exact lookup3_insertTriple_self _ _ _ _ _
      · simp only [eq_false_of_ne_true hcr, Bool.false_eq_true, if_false, hnil]
        by_cases hskip : skipRow g r = true
        · simp [processRow, hskip]
        · simp only [processRow, hskip]
          simp only [Bool.false_eq_true, if_false]
          by_cases hns : (rowNodes g sc ec r).isEmpty = true
          · simp [hns]
          · simp only [hns, Bool.false_eq_true, if_false]
            have htr : ¬ (tripleOf g r = (t, nt, nv)) := by
              intro hcontra
              apply hcr
              unfold contrib
              simp only [Bool.and_eq_true, Bool.not_eq_true']
              refine ⟨⟨?_, ?_⟩, ?_⟩
              · exact eq_false_of_ne_true hskip
              · exact eq_false_of_ne_true hns
              · simp [hcontra]
            have hne3 : ¬ ((tripleOf g r).1 = t ∧ (tripleOf g r).2.1 = nt ∧ (tripleOf g r).2.2 = nv) := by
              intro ⟨h1, h2, h3⟩
              apply htr
              have : tripleOf g r = ((tripleOf g r).1, (tripleOf g r).2.1, (tripleOf g r).2.2) := rfl
              rw [this, h1, h2, h3]
            exact lookup3_insertTriple_ne _ _ _ _ _ _ _ _ hne3

theorem rowNodes_foldl_lookup (g : Grid) (r : Nat) (k : String) (L : List Nat) :
    ∀ acc : RowMap,
      listLookup
        (L.foldl
          (fun acc c =>
            if filled (cellVal g r c) then
              updIns acc (keyOf (cellVal g 2 c)) ((cellVal g r c).getD "")
            else acc)
          acc) k =
      match (L.filter fun c =>
          filled (cellVal g r c) && decide (keyOf (cellVal g 2 c) = k)).getLast? with
      | some c => some ((cellVal g r c).getD "")
      | none => listLookup acc k := by
  induction L with
  | nil => intro acc; simp
  | cons c0 rest ih =>
    intro acc
    simp only [List.foldl_cons, List.filter_cons]
    rw [ih]
    cases hrest : (rest.filter fun c =>
        filled (cellVal g r c) && decide (keyOf (cellVal g 2 c) = k)).getLast? with
    | some c2 =>
      have hne : (rest.filter fun c =>
          filled (cellVal g r c) && decide (keyOf (cellVal g 2 c) = k)) ≠ [] := by
        intro hc
        rw [hc] at hrest
        cases hrest
      by_cases hp : (filled (cellVal g r c0) && decide (keyOf (cellVal g 2 c0) = k)) = true
      · simp only [hp, if_true]
        rw [getLast?_cons_of_ne_nil _ _ hne, hrest]
      · simp only [eq_false_of_ne_true hp, Bool.false_eq_true, if_false, hrest]
    | none =>
      have hnil : (rest.filter fun c =>
          filled (cellVal g r c) && decide (keyOf (cellVal g 2 c) = k)) = [] := by
        cases hl : (rest.filter fun c =>
            filled (cellVal g r c) && decide (keyOf (cellVal g 2 c) = k)) with
        | nil => rfl
        | cons a b =>
          rw [hl] at hrest
          exfalso
          have : (a :: b).getLast?.isSome = true := by
            rw [List.getLast?_isSome]
            simp
          rw [hrest] at this
          cases this
      by_cases hf : filled (cellVal g r c0) = true
      · by_cases hk : keyOf (cellVal g 2 c0) = k
        · have hp : (filled (cellVal g r c0) && decide (keyOf (cellVal g 2 c0) = k)) = true := by
            simp [hf, hk]
          rw [hp]
          simp only [if_true, hnil, List.getLast?_singleton, hf]
          rw [hk, listLookup_updIns_self]
        · have hp : (filled (cellVal g r c0) && decide (keyOf (cellVal g 2 c0) = k)) = false := by
            simp [hf, hk]
          rw [hp]
          simp only [Bool.false_eq_true, if_false, hnil, hf, if_true]
          rw [listLookup_updIns_ne _ _ _ _ (fun hc => hk hc.symm)]
          rfl
      · have hp : (filled (cellVal g r c0) && decide (keyOf (cellVal g 2 c0) = k)) = false := by
          simp [hf]
        rw [hp]
        simp only [Bool.false_eq_true, if_false, hnil]
        simp only [eq_false_of_ne_true hf, Bool.false_eq_true, if_false]
        rfl

theorem rowNodes_lookup (g : Grid) (sc ec r : Nat) (k : String) :
    listLookup (rowNodes g sc ec r) k =
      (((List.range' sc (ec + 1 - sc)).filter fun c =>
          filled (cellVal g r c) && decide (keyOf (cellVal g 2 c) = k)).getLast?).map
        (fun c => (cellVal g r c).getD "") := by
  unfold rowNodes
  rw [rowNodes_foldl_lookup]
  cases h : ((List.range' sc (ec + 1 - sc)).filter fun c =>
      filled (cellVal g r c) && decide (keyOf (cellVal g 2 c) = k)).getLast? with
  | some c => simp
  | none => simp [listLookup]

theorem getLast?_filter_range' (p : Nat → Bool) (m : Nat) :
    ∀ s n : Nat, m ∈ List.range' s n → p m = true →
      (∀ k ∈ List.range' s n, p k = true → k ≤ m) →
      ((List.range' s n).filter p).getLast? = some m := by
  intro s n
  induction n generalizing s with
  | zero => intro hm; simp at hm
  | succ n ih =>
    intro hm hpm hmax
    have hsucc : List.range' s (n + 1) = s :: List.range' (s + 1) n := rfl
    rw [hsucc] at hm hmax ⊢
    by_cases hms : m = s
    · subst hms
      have htail : (List.range' (m + 1) n).filter p = [] := by
        apply List.filter_eq_nil_iff.mpr
        intro a ha hpa
        have h1 : m + 1 ≤ a := (List.mem_range'_1.mp ha).1
        have h2 : a ≤ m := hmax a (List.mem_cons_of_mem _ ha) hpa
        omega
      simp [List.filter_cons, hpm, htail]
    · have hmem : m ∈ List.range' (s + 1) n := by
        rcases List.mem_cons.mp hm with h | h
        · exact absurd h hms
        · exact h
      have htail := ih (s + 1) hmem hpm (fun k hk hpk => hmax k (List.mem_cons_of_mem _ hk) hpk)
      have hne : (List.range' (s + 1) n).filter p ≠ [] := by
        intro hc
        rw [hc] at htail
        cases htail
      simp only [List.filter_cons]
      by_cases hps : p s = true
      · simp only [hps, if_true]
        rw [getLast?_cons_of_ne_nil _ _ hne, htail]
      · simp only [eq_false_of_ne_true hps, Bool.false_eq_true, if_false, htail]

theorem create_hierarchical_json_ok_inv (g : Grid) (sv ev : String) (sc ec : Nat)
    (data : NestedData) (skipped : List Nat)
    (hok : create_hierarchical_json g sv ev = .ok (data, skipped))
    (hsc : resolveStartCol (versionLabels g) sv = some sc)
    (hec : resolveEndCol (versionLabels g) ev (get_last_col_with_value g) = some ec) :
    (data, skipped) = (dataRows g).foldl (processRow g sc ec) ([], []) ∧
      "" ∉ versionLabels g ∧ sc < ec := by
  unfold create_hierarchical_json at hok
  by_cases hmem : "" ∈ versionLabels g
  · simp [hmem] at hok
  · simp only [hmem, if_false] at hok
    rw [hsc, hec] at hok
    by_cases hle : ec ≤ sc
    · simp [hle] at hok
    · simp only [hle, if_false] at hok
      refine ⟨?_, hmem, by omega⟩
      injection hok with hh
      exact hh.symm

instance : DecidableEq (List (String × RowMap)) := inferInstance

instance : DecidableEq (List (String × List (String × RowMap))) := inferInstance

instance : DecidableEq NestedData := inferInstance

instance {ε α : Type} [DecidableEq ε] [DecidableEq α] : DecidableEq (Except ε α) := fun x y =>
  match x, y with
  | .error a, .error b =>
    if h : a = b then isTrue (by rw [h]) else isFalse (fun hc => h (by cases hc; rfl))
  | .ok a, .ok b =>
    if h : a = b then isTrue (by rw [h]) else isFalse (fun hc => h (by cases hc; rfl))
  | .error _, .ok _ => isFalse (fun hc => by cases hc)
  | .ok _, .error _ => isFalse (fun hc => by cases hc)

/-- C2: on a grid with at least 5 populated columns, `create_hierarchical_json`
    fails with `HeaderIncomplete` whenever some trimmed row-2 label in columns
    `4 .. last_col - 1` is empty; with a complete header it fails with
    `VersionNotFound` whenever `start_version` or `end_version` is a non-empty
    string absent from the label span; and when both endpoints resolve to
    columns it fails with `InvalidRange` whenever the start column is not
    strictly below the end column (so in particular when the two versions are
    equal).  Each failure returns an error value, so no output mapping is
    produced. -/
theorem create_hierarchical_json_failures (g : Grid) (sv ev : String)
    (h5 : 5 ≤ get_last_col_with_value g) :
    ("" ∈ versionLabels g →
      create_hierarchical_json g sv ev = .error .HeaderIncomplete) ∧
    ("" ∉ versionLabels g →
      ((sv ≠ "" ∧ sv ∉ versionLabels g) ∨ (ev ≠ "" ∧ ev ∉ versionLabels g)) →
      create_hierarchical_json g sv ev = .error .VersionNotFound) ∧
    (∀ sc ec, "" ∉ versionLabels g →
      resolveStartCol (versionLabels g) sv = some sc →
      resolveEndCol (versionLabels g) ev (get_last_col_with_value g) = some ec →
      ec ≤ sc →
      create_hierarchical_json g sv ev = .error .InvalidRange) := by
  refine ⟨?_, ?_, ?_⟩
  · intro hmem
    unfold create_hierarchical_json
    simp [hmem]
  · intro hmem hbad
    unfold create_hierarchical_json
    simp only [hmem, if_false]
    rcases hbad with ⟨hsv, hnotin⟩ | ⟨hev, hnotin⟩
    · have hres : resolveStartCol (versionLabels g) sv = none :=
        (resolveStartCol_eq_none_iff _ _).mpr ⟨hsv, hnotin⟩
      rw [hres]
    · cases hrs : resolveStartCol (versionLabels g) sv with
      | none => rfl
      | some sc =>
        have hres : resolveEndCol (versionLabels g) ev (get_last_col_with_value g) = none :=
          (resolveEndCol_eq_none_iff _ _ _).mpr ⟨hev, hnotin⟩
        rw [hres]
  · intro sc ec hmem hsc hec hle
    unfold create_hierarchical_json
    simp only [hmem, if_false]
    rw [hsc, hec]
    simp [hle]

/-- Grid with an empty trimmed label inside the row-2 span `4 .. last_col - 1`. -/
def gHeaderGap : Grid :=
  [[some "t"],
   [none, none, none, some "v1", none, some "c"],
   [some "a", some "b", some "r", some "x", some "y", some "z"]]

/-- Well-formed grid: labels `v1`, `v2` in columns 4 and 5, comment column 6. -/
def gWindow : Grid :=
  [[some "t"],
   [none, none, none, some "v1", some "v2", some "c"],
   [some "a", some "b", some "r", some "x", some "y", some "z"]]

/-- Witness for C2 on concrete grids: a blank label yields `HeaderIncomplete`,
    an unknown start version yields `VersionNotFound`, and equal start and end
    versions resolve to the same column and yield `InvalidRange`. -/
theorem create_hierarchical_json_failures_witness :
    create_hierarchical_json gHeaderGap "" "" = .error .HeaderIncomplete ∧
    create_hierarchical_json gWindow "zz" "" = .error .VersionNotFound ∧
    create_hierarchical_json gWindow "v2" "v2" = .error .InvalidRange := by
  refine ⟨?_, ?_, ?_⟩
  · exact (create_hierarchical_json_failures gHeaderGap "" "" (by decide)).1 (by decide)
  · exact (create_hierarchical_json_failures gWindow "zz" "" (by decide)).2.1 (by decide)
      (Or.inl ⟨by decide, by decide⟩)
  · exact (create_hierarchical_json_failures gWindow "v2" "v2" (by decide)).2.2 5 5
      (by decide) (by decide) (by decide) (by decide)

/-- Grid whose row-2 labels in columns 4 and 5 are both `v`: the resolved
    window is `[4, 5]` and both data cells are non-empty. -/
def gLabelClash : Grid :=
  [[some "t"],
   [none, none, none, some "v", some "v", some "c"],
   [some "a", some "b", some "r", some "X", some "Y", some "note"]]

/-- C1 counterexample: in `gLabelClash` column 4 lies inside the resolved
    window `[4, 5]`, holds the non-empty value `X`, and its row-2 label is `v`,
    yet the mapping produced for the (non-skipped) data row contains no entry
    keying `v` to `X`: column 5 carries the same label and its value `Y`
    overwrote the entry, so the claimed per-column entry is absent from the
    output. -/
theorem create_hierarchical_json_overwrite_cex :
    resolveStartCol (versionLabels gLabelClash) "" = some 4 ∧
    resolveEndCol (versionLabels gLabelClash) "" (get_last_col_with_value gLabelClash) = some 5 ∧
    filled (cellVal gLabelClash 3 4) = true ∧
    cellVal gLabelClash 3 4 = some "X" ∧
    keyOf (cellVal gLabelClash 2 4) = "v" ∧
    skipRow gLabelClash 3 = false ∧
    create_hierarchical_json gLabelClash "" "" =
      .ok ([("a", [("b", [("r", [("v", "Y"), ("c", "note")])])])], []) ∧
    ("v", "X") ∉ ([("v", "Y"), ("c", "note")] : RowMap) := by
  decide

/-- C1 (amended): on a successful extraction, (i) a data row index is recorded
    in the skipped list exactly when its trimmed tech, node type or node
    version is empty or all three are textually equal — `skipped` is precisely
    the filter of the data-row range by that test; (ii) the per-row mapping
    holds, for each row-2 label, the literal value of the LAST column of the
    window `[start_col, end_col]` bearing that label with a non-empty cell
    (later columns overwrite earlier ones sharing a label; with pairwise
    distinct labels this is each column of the window with its own value), and
    every non-empty windowed cell does contribute its label as a present key;
    (iii) the output holds a mapping at `tech -> node_type -> node_version`
    exactly when some non-skipped row with that trimmed triple has a non-empty
    window mapping, namely the mapping of the last such row. -/
theorem create_hierarchical_json_row_semantics (g : Grid) (sv ev : String) (sc ec : Nat)
    (data : NestedData) (skipped : List Nat)
    (hok : create_hierarchical_json g sv ev = .ok (data, skipped))
    (hsc : resolveStartCol (versionLabels g) sv = some sc)
    (hec : resolveEndCol (versionLabels g) ev (get_last_col_with_value g) = some ec) :
    skipped = (dataRows g).filter (skipRow g) ∧
    (∀ r k, listLookup (rowNodes g sc ec r) k =
        (((List.range' sc (ec + 1 - sc)).filter fun c =>
            filled (cellVal g r c) && decide (keyOf (cellVal g 2 c) = k)).getLast?).map
          (fun c => (cellVal g r c).getD "")) ∧
    (∀ r c, c ∈ List.range' sc (ec + 1 - sc) → filled (cellVal g r c) = true →
        ∃ v, listLookup (rowNodes g sc ec r) (keyOf (cellVal g 2 c)) = some v) ∧
    (∀ t nt nv, lookup3 data t nt nv =
        (((dataRows g).filter (contrib g sc ec t nt nv)).getLast?).map (rowFull g sc ec)) := by
  obtain ⟨heq, -, -⟩ := create_hierarchical_json_ok_inv g sv ev sc ec data skipped hok hsc hec
  have hdata : data = ((dataRows g).foldl (processRow g sc ec) ([], [])).1 :=
    congrArg Prod.fst heq
  have hskip : skipped = ((dataRows g).foldl (processRow g sc ec) ([], [])).2 :=
    congrArg Prod.snd heq
  refine ⟨?_, ?_, ?_, ?_⟩
  · rw [hskip, foldl_processRow_skipped]
    simp
  · intro r k
    exact rowNodes_lookup g sc ec r k
  · intro r c hcmem hcf
    have hmemf : c ∈ (List.range' sc (ec + 1 - sc)).filter fun c2 =>
        filled (cellVal g r c2) && decide (keyOf (cellVal g 2 c2) = keyOf (cellVal g 2 c)) :=
      List.mem_filter.mpr ⟨hcmem, by simp [hcf]⟩
    have hne : ((List.range' sc (ec + 1 - sc)).filter fun c2 =>
        filled (cellVal g r c2) && decide (keyOf (cellVal g 2 c2) = keyOf (cellVal g 2 c))) ≠ [] :=
      List.ne_nil_of_mem hmemf
    cases hl : ((List.range' sc (ec + 1 - sc)).filter fun c2 =>
        filled (cellVal g r c2) && decide (keyOf (cellVal g 2 c2) = keyOf (cellVal g 2 c))).getLast? with
    | none =>
      exfalso
      rcases List.exists_mem_of_ne_nil _ hne with ⟨x, hx⟩
      have : ((List.range' sc (ec + 1 - sc)).filter fun c2 =>
          filled (cellVal g r c2) && decide (keyOf (cellVal g 2 c2) = keyOf (cellVal g 2 c))).getLast?.isSome = true := by
        rw [List.getLast?_isSome]
        exact hne
      rw [hl] at this
      cases this
    | some c2 =>
      refine ⟨(cellVal g r c2).getD "", ?_⟩
      rw [rowNodes_lookup, hl]
      rfl
  · intro t nt nv
    rw [hdata, foldl_processRow_lookup3]
    cases hl : ((dataRows g).filter (contrib g sc ec t nt nv)).getLast? with
    | none => rfl
    | some r => rfl

/-- Witness for the amended C1 on `gWindow`: extraction succeeds with an empty
    skipped list matching the filter, and the output lookup at the single
    triple matches the last contributing row. -/
theorem create_hierarchical_json_row_semantics_witness :
    ([] : List Nat) = (dataRows gWindow).filter (skipRow gWindow) ∧
    lookup3 [("a", [("b", [("r", [("v1", "x"), ("v2", "y"), ("c", "z")])])])] "a" "b" "r" =
      (((dataRows gWindow).filter (contrib gWindow 4 5 "a" "b" "r")).getLast?).map
        (rowFull gWindow 4 5) := by
  have h := create_hierarchical_json_row_semantics gWindow "" "" 4 5
    [("a", [("b", [("r", [("v1", "x"), ("v2", "y"), ("c", "z")])])])] []
    (by decide) (by decide) (by decide)
  exact ⟨h.1, h.2.2.2 "a" "b" "r"⟩

/-- C10: when two non-skipped data rows `r1 < r2` carry the same trimmed key
    triple and both produce non-empty window mappings, and every other data row
    is skipped, the output maps the triple to exactly the later row r2 mapping;
    the earlier row r1 mapping (when it differs from the r2 mapping) is the
    value of no key path of the output, and neither row index is recorded in
    the skipped list. -/
theorem create_hierarchical_json_last_wins
    (g : Grid) (sv ev : String) (sc ec : Nat) (data : NestedData) (skipped : List Nat)
    (r1 r2 : Nat) (t nt nv : String)
    (hok : create_hierarchical_json g sv ev = .ok (data, skipped))
    (hsc : resolveStartCol (versionLabels g) sv = some sc)
    (hec : resolveEndCol (versionLabels g) ev (get_last_col_with_value g) = some ec)
    (hr1 : r1 ∈ dataRows g) (hr2 : r2 ∈ dataRows g) (hlt : r1 < r2)
    (hs1 : skipRow g r1 = false) (hs2 : skipRow g r2 = false)
    (ht1 : tripleOf g r1 = (t, nt, nv)) (ht2 : tripleOf g r2 = (t, nt, nv))
    (hn1 : (rowNodes g sc ec r1).isEmpty = false) (hn2 : (rowNodes g sc ec r2).isEmpty = false)
    (hothers : ∀ r ∈ dataRows g, r ≠ r1 → r ≠ r2 → skipRow g r = true) :
    lookup3 data t nt nv = some (rowFull g sc ec r2) ∧
    (rowFull g sc ec r1 ≠ rowFull g sc ec r2 →
      ∀ a b c, lookup3 data a b c ≠ some (rowFull g sc ec r1)) ∧
    r1 ∉ skipped ∧ r2 ∉ skipped := by
  obtain ⟨heq, -, -⟩ := create_hierarchical_json_ok_inv g sv ev sc ec data skipped hok hsc hec
  have hdata : data = ((dataRows g).foldl (processRow g sc ec) ([], [])).1 :=
    congrArg Prod.fst heq
  have hskip : skipped = ((dataRows g).foldl (processRow g sc ec) ([], [])).2 :=
    congrArg Prod.snd heq
  have hlook : ∀ a b c, lookup3 data a b c =
      match ((dataRows g).filter (contrib g sc ec a b c)).getLast? with
      | some r => some (rowFull g sc ec r)
      | none => lookup3 ([] : NestedData) a b c := by
    intro a b c
    rw [hdata]
    exact foldl_processRow_lookup3 g sc ec a b c (dataRows g) [] []
  have hc1 : contrib g sc ec t nt nv r1 = true := by
    simp [contrib, hs1, hn1, ht1]
  have hc2 : contrib g sc ec t nt nv r2 = true := by
    simp [contrib, hs2, hn2, ht2]
  have hcmax : ∀ k ∈ dataRows g, contrib g sc ec t nt nv k = true → k ≤ r2 := by
    intro k hk hck
    by_cases hk1 : k = r1
    · omega
    · by_cases hk2 : k = r2
      · omega
      · exfalso
        have hsk := hothers k hk hk1 hk2
        unfold contrib at hck
        simp only [Bool.and_eq_true, Bool.not_eq_true'] at hck
        rw [hck.1.1] at hsk
        cases hsk
  have hlast : ((dataRows g).filter (contrib g sc ec t nt nv)).getLast? = some r2 := by
    unfold dataRows at hr2 hcmax ⊢
    exact getLast?_filter_range' (contrib g sc ec t nt nv) r2 3
      (get_last_row_with_value g - 2) hr2 hc2 hcmax
  have hskipeq : skipped = (dataRows g).filter (skipRow g) := by
    rw [hskip, foldl_processRow_skipped]
    simp
  refine ⟨?_, ?_, ?_, ?_⟩
  · rw [hlook t nt nv, hlast]
  · intro hneq a b c hcontra
    rw [hlook a b c] at hcontra
    cases hl : ((dataRows g).filter (contrib g sc ec a b c)).getLast? with
    | none =>
      rw [hl] at hcontra
      simp [lookup3, listLookup] at hcontra
    | some rr =>
      rw [hl] at hcontra
      have hval : rowFull g sc ec rr = rowFull g sc ec r1 := by
        injection hcontra with hh
      have hrrmem : rr ∈ (dataRows g).filter (contrib g sc ec a b c) :=
        List.mem_of_mem_getLast? hl
      obtain ⟨hrrd, hrrc⟩ := List.mem_filter.mp hrrmem
      by_cases hrr2 : rr = r2
      · subst hrr2
        exact hneq hval.symm
      · by_cases hrr1 : rr = r1
        · subst hrr1
          have htriple : tripleOf g rr = (a, b, c) := by
            unfold contrib at hrrc
            simp only [Bool.and_eq_true, decide_eq_true_eq] at hrrc
            exact hrrc.2
          have habc : (a, b, c) = (t, nt, nv) := by
            rw [← htriple, ht1]
          have hcmax2 : ∀ k ∈ dataRows g, contrib g sc ec a b c k = true → k ≤ r2 := by
            rw [show a = t from congrArg (Prod.fst) habc,
              show b = nt from congrArg (fun p => p.2.1) habc,
              show c = nv from congrArg (fun p => p.2.2) habc]
            exact hcmax
          have hc2b : contrib g sc ec a b c r2 = true := by
            rw [show a = t from congrArg (Prod.fst) habc,
              show b = nt from congrArg (fun p => p.2.1) habc,
              show c = nv from congrArg (fun p => p.2.2) habc]
            exact hc2
          have hlast2 : ((dataRows g).filter (contrib g sc ec a b c)).getLast? = some r2 := by
            unfold dataRows at hr2 hcmax2 ⊢
            exact getLast?_filter_range' (contrib g sc ec a b c) r2 3
              (get_last_row_with_value g - 2) hr2 hc2b hcmax2
          rw [hl] at hlast2
          injection hlast2 with hh
          omega
        · have hsk := hothers rr hrrd hrr1 hrr2
          unfold contrib at hrrc
          simp only [Bool.and_eq_true, Bool.not_eq_true'] at hrrc
          rw [hrrc.1.1] at hsk
          cases hsk
  · rw [hskipeq]
    intro hmemf
    have := (List.mem_filter.mp hmemf).2
    rw [hs1] at this
    cases this
  · rw [hskipeq]
    intro hmemf
    have := (List.mem_filter.mp hmemf).2
    rw [hs2] at this
    cases this

/-- Grid with two duplicate-triple contributing rows (5 and 6) and two skipped
    rows (3: all-equal header, 4: missing tech). -/
def gDup : Grid :=
  [[some "t"],
   [none, none, none, some "v1", some "v2", some "c"],
   [some "5G", some "5G", some "5G", some "x", some "y", some "n1"],
   [none, some "b", some "r", some "x", some "y", some "n2"],
   [some "a", some "b", some "r", some "X1", none, some "n3"],
   [some "a", some "b", some "r", none, some "Z", none]]

/-- Witness for C10 on `gDup`: extraction keeps only the mapping of row 6 at
    `a -> b -> r`, the differing row-5 mapping is the value of no key path, and
    rows 5 and 6 are not in the skipped list. -/
theorem create_hierarchical_json_last_wins_witness :
    lookup3 [("a", [("b", [("r", [("v2", "Z")])])])] "a" "b" "r" =
      some (rowFull gDup 4 5 6) ∧
    lookup3 [("a", [("b", [("r", [("v2", "Z")])])])] "a" "b" "r" ≠
      some (rowFull gDup 4 5 5) ∧
    (5 : Nat) ∉ [3, 4] ∧ (6 : Nat) ∉ [3, 4] := by
  have h := create_hierarchical_json_last_wins gDup "" "" 4 5
    [("a", [("b", [("r", [("v2", "Z")])])])] [3, 4] 5 6 "a" "b" "r"
    (by decide) (by decide) (by decide) (by decide) (by decide) (by decide)
    (by decide) (by decide) (by decide) (by decide) (by decide) (by decide)
    (by decide)
  exact ⟨h.1, h.2.1 (by decide) "a" "b" "r", h.2.2.1, h.2.2.2⟩

-- ------------------------------------------------------------------
-- Worksheet state: merges, fills, issue ledger (lib/excel_parser.py)
-- ------------------------------------------------------------------

/-- The two fill styles the embedded functions use: `red_fill` and
    `light_red_fill` of the source. -/
inductive Fill where
  | red
  | lightRed
deriving DecidableEq, Repr

/-- A merged rectangular region with its anchor at `(minRow, minCol)`. -/
structure MRange where
  minRow : Nat
  minCol : Nat
  maxRow : Nat
  maxCol : Nat
deriving DecidableEq, Repr

/-- The issue ledger: one ordered list per category. -/
structure Ledger where
  merged_empty_cells : List MRange
  unusable_rows : List Nat
  incomplete_rows : List Nat
  node_header_rows : List Nat
  removed_header_rows : List Nat
  empty_cell_in_enm_version_row2 : List (Nat × Nat)
deriving DecidableEq, Repr

/-- A worksheet together with its merged regions, the fills applied so far
    (an append-only event list), and the caller-owned issue ledger. -/
structure SheetState where
  grid : Grid
  merges : List MRange
  fills : List ((Nat × Nat) × Fill)
  ledger : Ledger
deriving DecidableEq, Repr

/-- Write value `v` at `(r, c)`; out-of-bounds writes are dropped (the source
    only ever writes inside the populated area). -/
def setCell (g : Grid) (r c : Nat) (v : CellValue) : Grid :=
  if r = 0 || c = 0 then g
  else
    match g[r - 1]? with
    | none => g
    | some row => g.set (r - 1) (row.set (c - 1) v)

/-- Membership of `(r, c)` in a merged region. -/
def inRegion (mr : MRange) (r c : Nat) : Bool :=
  decide (mr.minRow ≤ r) && decide (r ≤ mr.maxRow) &&
    decide (mr.minCol ≤ c) && decide (c ≤ mr.maxCol)

/-- The cells of a merged region in row-major order, as `ws[range.coord]`
    iterates them. -/
def regionCells (mr : MRange) : List (Nat × Nat) :=
  (List.range' mr.minRow (mr.maxRow + 1 - mr.minRow)).flatMap fun r =>
    (List.range' mr.minCol (mr.maxCol + 1 - mr.minCol)).map fun c => (r, c)

/-- Two regions share no cell. -/
def disjointRegions (a b : MRange) : Bool :=
  decide (a.maxRow < b.minRow) || decide (b.maxRow < a.minRow) ||
    decide (a.maxCol < b.minCol) || decide (b.maxCol < a.minCol)

/-- Every cell of the region addresses an existing position of the grid. -/
def regionInBounds (g : Grid) (mr : MRange) : Bool :=
  (regionCells mr).all fun rc =>
    decide (rc.1 ≤ g.length) && decide (rc.2 ≤ (rowCells g rc.1).length)

/-- Broadcast `v` to every cell of the region. -/
def writeRegion (g : Grid) (mr : MRange) (v : String) : Grid :=
  (regionCells mr).foldl (fun acc rc => setCell acc rc.1 rc.2 (some v)) g

/-- One iteration of the merged-range loop of `unmerge_and_fill`: read the
    anchor value, record the region when the anchor is `None` (the source
    tests `cell_value is None` only), dissolve the region, then either flag
    every cell red (anchor `None`) or broadcast the anchor value. -/
def processRange (s : SheetState) (mr : MRange) : SheetState :=
  match cellVal s.grid mr.minRow mr.minCol with
  | none =>
    { grid := s.grid
      merges := s.merges.erase mr
      fills := s.fills ++ (regionCells mr).map fun rc => (rc, Fill.red)
      ledger := { s.ledger with
        merged_empty_cells := s.ledger.merged_empty_cells ++ [mr] } }
  | some v =>
    { grid := writeRegion s.grid mr v
      merges := s.merges.erase mr
      fills := s.fills
      ledger := s.ledger }

/-- `unmerge_and_fill(ws, issues)` from `lib/excel_parser.py`: iterate over a
    snapshot of the merged ranges and process each. -/
def unmerge_and_fill (s : SheetState) : SheetState × Bool :=
  (s.merges.foldl processRange s, true)

/-- `values[i]` of `highlight_unusable_rows`: strings are stripped, `None`
    stays `None`. -/
def trimVal (v : CellValue) : CellValue := v.map pyStrip

/-- The `v in (None, "")` emptiness test. -/
def emptyVal (v : CellValue) : Bool :=
  match v with
  | none => true
  | some s => s == ""

/-- Light-red fills over columns `1 .. last_col` of a row. -/
def rowFillCells (r lc : Nat) (f : Fill) : List ((Nat × Nat) × Fill) :=
  (List.range' 1 lc).map fun c => ((r, c), f)

/-- Case 1 of the classifier: all three trimmed key values empty. -/
def allEmptyB (g : Grid) (r : Nat) : Bool :=
  emptyVal (trimVal (cellVal g r 1)) && emptyVal (trimVal (cellVal g r 2)) &&
    emptyVal (trimVal (cellVal g r 3))

/-- Case 3 of the classifier: first value non-empty and all three equal. -/
def headerB (g : Grid) (r : Nat) : Bool :=
  !emptyVal (trimVal (cellVal g r 1)) &&
    decide (trimVal (cellVal g r 1) = trimVal (cellVal g r 2)) &&
    decide (trimVal (cellVal g r 2) = trimVal (cellVal g r 3))

/-- Case 2 of the classifier as reached by the source branch order: some value
    empty, but neither all-empty nor an all-equal header row. -/
def partlyB (g : Grid) (r : Nat) : Bool :=
  (emptyVal (trimVal (cellVal g r 1)) || emptyVal (trimVal (cellVal g r 2)) ||
    emptyVal (trimVal (cellVal g r 3))) && !allEmptyB g r && !headerB g r

/-- One iteration of the row loop of `highlight_unusable_rows`, carrying the
    three category lists and the fill events. -/
def classifyStep (g : Grid) (lc : Nat)
    (acc : List Nat × List Nat × List Nat × List ((Nat × Nat) × Fill)) (r : Nat) :
    List Nat × List Nat × List Nat × List ((Nat × Nat) × Fill) :=
  let v1 := trimVal (cellVal g r 1)
  let v2 := trimVal (cellVal g r 2)
  let v3 := trimVal (cellVal g r 3)
  if emptyVal v1 && emptyVal v2 && emptyVal v3 then
    (acc.1 ++ [r], acc.2.1, acc.2.2.1, acc.2.2.2 ++ rowFillCells r lc Fill.lightRed)
  else if !emptyVal v1 && decide (v1 = v2) && decide (v2 = v3) then
    (acc.1, acc.2.1, acc.2.2.1 ++ [r], acc.2.2.2 ++ rowFillCells r lc Fill.lightRed)
  else if emptyVal v1 || emptyVal v2 || emptyVal v3 then
    (acc.1, acc.2.1 ++ [r], acc.2.2.1,
      acc.2.2.2 ++ rowFillCells r lc Fill.lightRed ++
        (([(1, v1), (2, v2), (3, v3)].filter fun p => emptyVal p.2).map
          fun p => ((r, p.1), Fill.red)))
  else acc

/-- `highlight_unusable_rows(ws, issues)` from `lib/excel_parser.py`: one pass
    over the data rows collecting (and highlighting) the three categories, then
    ASSIGNING the collected lists to the ledger keys. -/
def highlight_unusable_rows (s : SheetState) : SheetState × Bool :=
  let lc := get_last_col_with_value s.grid
  let lr := get_last_row_with_value s.grid
  let res := (List.range' 3 (lr - 2)).foldl (classifyStep s.grid lc) ([], [], [], s.fills)
  ({ s with
      fills := res.2.2.2
      ledger := { s.ledger with
        unusable_rows := res.1
        incomplete_rows := res.2.1
        node_header_rows := res.2.2.1 } }, true)

/-- The `val is None or str(val).strip() == ""` blank test of
    `highlight_empty_cell`. -/
def isBlank (v : CellValue) : Bool :=
  match v with
  | none => true
  | some s => pyStrip s == ""

/-- One iteration of the column loop of `highlight_empty_cell`: a blank row-2
    cell gets a red fill and its coordinate recorded. -/
def hecStep (g : Grid) (acc : List ((Nat × Nat) × Fill) × List (Nat × Nat)) (c : Nat) :
    List ((Nat × Nat) × Fill) × List (Nat × Nat) :=
  if isBlank (cellVal g 2 c) then (acc.1 ++ [((2, c), Fill.red)], acc.2 ++ [(2, c)]) else acc

/-- `highlight_empty_cell(ws, issues)` from `lib/excel_parser.py`: scan row 2,
    columns `4 .. last_col`, flagging and recording every blank cell. -/
def highlight_empty_cell (s : SheetState) : SheetState × Bool :=
  let lc := get_last_col_with_value s.grid
  let res := (List.range' 4 (lc + 1 - 4)).foldl (hecStep s.grid)
    (s.fills, s.ledger.empty_cell_in_enm_version_row2)
  ({ s with
      fills := res.1
      ledger := { s.ledger with empty_cell_in_enm_version_row2 := res.2 } }, true)

/-- The deletion test of `remove_node_header` on the CURRENT grid: the three
    raw key values all equal, or node type and node version both empty. -/
def rnhTest (g : Grid) (i : Nat) : Bool :=
  (decide (cellVal g i 1 = cellVal g i 2) && decide (cellVal g i 2 = cellVal g i 3)) ||
    (emptyVal (cellVal g i 2) && emptyVal (cellVal g i 3))

/-- One iteration of `remove_node_header(ws, issues)` from
    `lib/excel_parser.py`: a matching row is recorded at its current index and
    physically deleted, shifting later rows up (the ascending pass does NOT
    re-examine the row shifted into the deleted position). -/
def rnhStep (st : SheetState) (i : Nat) : SheetState :=
  if rnhTest st.grid i then
    { st with
        grid := st.grid.eraseIdx (i - 1)
        ledger := { st.ledger with
          removed_header_rows := st.ledger.removed_header_rows ++ [i] } }
  else st

/-- The full pass of `remove_node_header`: fold the per-index step over the
    precomputed range `3 .. last_row`. -/
def remove_node_header (s : SheetState) : SheetState × Bool :=
  let lr := get_last_row_with_value s.grid
  ((List.range' 3 (lr - 2)).foldl rnhStep s, true)

/-- The all-empty ledger a fresh run starts from. -/
def emptyLedger : Ledger := ⟨[], [], [], [], [], []⟩

-- ------------------------------------------------------------------
-- Merge resolution: idempotence (C9)
-- ------------------------------------------------------------------

theorem processRange_merges (s : SheetState) (mr : MRange) :
    (processRange s mr).merges = s.merges.erase mr := by
  unfold processRange
  cases cellVal s.grid mr.minRow mr.minCol <;> rfl

theorem foldl_processRange_merges (L : List MRange) :
    ∀ s : SheetState, (L.foldl processRange s).merges =
      L.foldl (fun m mr => m.erase mr) s.merges := by
  induction L with
  | nil => intro s; rfl
  | cons x xs ih =>
    intro s
    simp only [List.foldl_cons]
    rw [ih, processRange_merges]

theorem erase_fold_self (L : List MRange) :
    L.foldl (fun m mr => m.erase mr) L = [] := by
  induction L with
  | nil => rfl
  | cons x xs ih =>
    simp only [List.foldl_cons, List.erase_cons_head]
    exact ih

theorem unmerge_and_fill_merges_nil (s : SheetState) :
    (unmerge_and_fill s).1.merges = [] := by
  unfold unmerge_and_fill
  rw [foldl_processRange_merges]
  exact erase_fold_self s.merges

/-- C9: the merge resolver is idempotent.  A first call dissolves every region,
    so a second call folds over an empty snapshot: it returns the state of the
    first call completely unchanged (no new ledger entries, no fill events, no
    cell value changes) together with success. -/
theorem unmerge_and_fill_idempotent (s : SheetState) :
    unmerge_and_fill ((unmerge_and_fill s).1) = ((unmerge_and_fill s).1, true) := by
  have h := unmerge_and_fill_merges_nil s
  show ((((unmerge_and_fill s).1).merges).foldl processRange ((unmerge_and_fill s).1), true) = _
  rw [h]
  rfl

-- ------------------------------------------------------------------
-- Merge resolution: counterexample state for the emptiness test (C3)
-- ------------------------------------------------------------------

/-- A single two-cell merged region whose anchor holds the empty string: blank
    after trimming, but not `None`. -/
def csBlankAnchor : SheetState :=
  ⟨[[some "", none]], [⟨1, 1, 1, 2⟩], [], emptyLedger⟩

/-- C3 counterexample: the anchor of the region of `csBlankAnchor` is empty in
    the sense of the specification (blank after trimming), yet the resolver
    records nothing under `merged_empty_cells`, applies no empty-merge
    highlight, and broadcasts the empty string into the second cell — a
    derived value.  The source tests `cell_value is None` only, so a
    whitespace-only or empty-string anchor is treated as a value. -/
theorem unmerge_and_fill_blank_anchor_cex :
    isBlank (cellVal csBlankAnchor.grid 1 1) = true ∧
    (unmerge_and_fill csBlankAnchor).1.ledger.merged_empty_cells = [] ∧
    (unmerge_and_fill csBlankAnchor).1.fills = [] ∧
    cellVal csBlankAnchor.grid 1 2 = none ∧
    cellVal (unmerge_and_fill csBlankAnchor).1.grid 1 2 = some "" := by
  decide

-- ------------------------------------------------------------------
-- Row deletion pass (C7)
-- ------------------------------------------------------------------

/-- Grid with two consecutive rows matching the deletion test (rows 3 and 4
    hold all-equal triples). -/
def csDrift : SheetState :=
  ⟨[[some "h1", some "h2", some "h3", some "h4", some "h5"],
    [none, none, none, some "v1", some "c"],
    [some "x", some "x", some "x", some "q", some "w"],
    [some "y", some "y", some "y", some "q2", some "w2"]], [], [], emptyLedger⟩

/-- C7 counterexample: on `csDrift` both data rows match the deletion test,
    yet after the pass the all-equal row `y` survives (shifted to index 3,
    where it still satisfies the test and lies within the data range), and the
    recorded indices `[3, 4]` are loop positions, not the original indices of
    deleted rows — the original row 4 was never deleted. -/
theorem remove_node_header_drift_cex :
    rnhTest csDrift.grid 3 = true ∧
    rnhTest csDrift.grid 4 = true ∧
    (remove_node_header csDrift).1.grid =
      [[some "h1", some "h2", some "h3", some "h4", some "h5"],
       [none, none, none, some "v1", some "c"],
       [some "y", some "y", some "y", some "q2", some "w2"]] ∧
    (remove_node_header csDrift).1.ledger.removed_header_rows = [3, 4] ∧
    rnhTest (remove_node_header csDrift).1.grid 3 = true ∧
    3 ≤ get_last_row_with_value (remove_node_header csDrift).1.grid := by
  decide

theorem rnhStep_grid_sublist (st : SheetState) (i : Nat) :
    List.Sublist (rnhStep st i).grid st.grid := by
  unfold rnhStep
  by_cases h : rnhTest st.grid i = true
  · simp only [h, if_true]
    exact List.eraseIdx_sublist _ _
  · simp only [eq_false_of_ne_true h, Bool.false_eq_true, if_false]
    exact List.Sublist.refl _

theorem rnh_fold_grid_sublist (L : List Nat) :
    ∀ st : SheetState, List.Sublist ((L.foldl rnhStep st).grid) st.grid := by
  induction L with
  | nil => intro st; exact List.Sublist.refl _
  | cons x xs ih =>
    intro st
    simp only [List.foldl_cons]
    exact List.Sublist.trans (ih (rnhStep st x)) (rnhStep_grid_sublist st x)

theorem rnhStep_ledger (st : SheetState) (i : Nat) :
    ∃ l, (rnhStep st i).ledger =
      { st.ledger with removed_header_rows := st.ledger.removed_header_rows ++ l } := by
  unfold rnhStep
  by_cases h : rnhTest st.grid i = true
  · exact ⟨[i], by simp [h]⟩
  · refine ⟨[], ?_⟩
    simp [eq_false_of_ne_true h]

theorem rnh_fold_ledger (L : List Nat) :
    ∀ st : SheetState, ∃ l, (L.foldl rnhStep st).ledger =
      { st.ledger with removed_header_rows := st.ledger.removed_header_rows ++ l } := by
  induction L with
  | nil => intro st; exact ⟨[], by simp⟩
  | cons x xs ih =>
    intro st
    simp only [List.foldl_cons]
    obtain ⟨l1, h1⟩ := rnhStep_ledger st x
    obtain ⟨l2, h2⟩ := ih (rnhStep st x)
    refine ⟨l1 ++ l2, ?_⟩
    rw [h2, h1]
    simp

theorem rnh_fold_noop (L : List Nat) :
    ∀ st : SheetState, (∀ i ∈ L, rnhTest st.grid i = false) → L.foldl rnhStep st = st := by
  induction L with
  | nil => intro st _; rfl
  | cons x xs ih =>
    intro st h
    simp only [List.foldl_cons]
    have hx : rnhStep st x = st := by
      unfold rnhStep
      simp [h x (List.mem_cons_self x xs)]
    rw [hx]
    exact ih st fun i hi => h i (List.mem_cons_of_mem _ hi)

/-- C7 (amended): `remove_node_header` makes one ascending pass over the
    precomputed indices `3 .. last_row`, testing the predicate (all three key
    values equal, or node type and node version both empty) against the grid
    as already shifted; a match records the CURRENT index and deletes that row,
    and the row shifted into an examined position is not re-examined, so
    matching rows can survive the pass and recorded indices need not be
    original indices.  What the pass guarantees: the surviving rows are an
    in-order subsequence of the original rows (rows are only deleted, never
    altered), `removed_header_rows` is only appended to, the function reports
    success, and when no data row of the original grid matches the predicate
    the state is returned completely unchanged. -/
theorem remove_node_header_pass (s : SheetState) :
    List.Sublist ((remove_node_header s).1.grid) s.grid ∧
    (∃ l, (remove_node_header s).1.ledger =
      { s.ledger with removed_header_rows := s.ledger.removed_header_rows ++ l }) ∧
    ((∀ i, 3 ≤ i → i ≤ get_last_row_with_value s.grid → rnhTest s.grid i = false) →
      (remove_node_header s).1 = s) ∧
    (remove_node_header s).2 = true := by
  refine ⟨?_, ?_, ?_, rfl⟩
  · exact rnh_fold_grid_sublist _ s
  · exact rnh_fold_ledger _ s
  · intro h
    apply rnh_fold_noop
    intro i hi
    have hm := List.mem_range'_1.mp hi
    exact h i (by omega) (by omega)

/-- Clean state: no data row matches the deletion test. -/
def csClean : SheetState :=
  ⟨[[some "h1", some "h2", some "h3", some "h4", some "h5"],
    [none, none, none, some "v1", some "c"],
    [some "a", some "b", some "r", some "q", some "w"]], [], [], emptyLedger⟩

/-- Witness for the amended C7: on `csClean` no row matches and the pass is the
    identity. -/
theorem remove_node_header_pass_witness :
    (remove_node_header csClean).1 = csClean ∧
    (remove_node_header csClean).2 = true := by
  have h := remove_node_header_pass csClean
  exact ⟨h.2.2.1 (by decide), h.2.2.2⟩

-- ------------------------------------------------------------------
-- Ledger discipline of the four populating components (C8)
-- ------------------------------------------------------------------

theorem processRange_ledger (s : SheetState) (mr : MRange) :
    ∃ l, (processRange s mr).ledger =
      { s.ledger with merged_empty_cells := s.ledger.merged_empty_cells ++ l } := by
  unfold processRange
  cases cellVal s.grid mr.minRow mr.minCol with
  | none => exact ⟨[mr], rfl⟩
  | some v => exact ⟨[], by simp⟩

theorem foldl_processRange_ledger (L : List MRange) :
    ∀ s : SheetState, ∃ l, (L.foldl processRange s).ledger =
      { s.ledger with merged_empty_cells := s.ledger.merged_empty_cells ++ l } := by
  induction L with
  | nil => intro s; exact ⟨[], by simp⟩
  | cons x xs ih =>
    intro s
    simp only [List.foldl_cons]
    obtain ⟨l1, h1⟩ := processRange_ledger s x
    obtain ⟨l2, h2⟩ := ih (processRange s x)
    refine ⟨l1 ++ l2, ?_⟩
    rw [h2, h1]
    simp

theorem processRange_fills (s : SheetState) (mr : MRange) :
    ∃ l, (processRange s mr).fills = s.fills ++ l := by
  unfold processRange
  cases cellVal s.grid mr.minRow mr.minCol with
  | none => exact ⟨(regionCells mr).map fun rc => (rc, Fill.red), rfl⟩
  | some v => exact ⟨[], by simp⟩

theorem foldl_processRange_fills (L : List MRange) :
    ∀ s : SheetState, ∃ l, (L.foldl processRange s).fills = s.fills ++ l := by
  induction L with
  | nil => intro s; exact ⟨[], by simp⟩
  | cons x xs ih =>
    intro s
    simp only [List.foldl_cons]
    obtain ⟨l1, h1⟩ := processRange_fills s x
    obtain ⟨l2, h2⟩ := ih (processRange s x)
    refine ⟨l1 ++ l2, ?_⟩
    rw [h2, h1]
    simp

theorem hec_fold_append (g : Grid) (L : List Nat) :
    ∀ f0 e0, ∃ lf le, L.foldl (hecStep g) (f0, e0) = (f0 ++ lf, e0 ++ le) := by
  induction L with
  | nil => intro f0 e0; exact ⟨[], [], by simp⟩
  | cons x xs ih =>
    intro f0 e0
    simp only [List.foldl_cons]
    by_cases h : isBlank (cellVal g 2 x) = true
    · have hstep : hecStep g (f0, e0) x = (f0 ++ [((2, x), Fill.red)], e0 ++ [(2, x)]) := by
        unfold hecStep
        simp [h]
      rw [hstep]
      obtain ⟨lf, le, hh⟩ := ih (f0 ++ [((2, x), Fill.red)]) (e0 ++ [(2, x)])
      exact ⟨((2, x), Fill.red) :: lf, (2, x) :: le, by rw [hh]; simp⟩
    · have hstep : hecStep g (f0, e0) x = (f0, e0) := by
        unfold hecStep
        simp [eq_false_of_ne_true h]
      rw [hstep]
      exact ih f0 e0

theorem classify_fold_lists_independent (g : Grid) (lc : Nat) (L : List Nat) :
    ∀ u i n f1 f2,
      ((L.foldl (classifyStep g lc) (u, i, n, f1)).1 =
        (L.foldl (classifyStep g lc) (u, i, n, f2)).1) ∧
      ((L.foldl (classifyStep g lc) (u, i, n, f1)).2.1 =
        (L.foldl (classifyStep g lc) (u, i, n, f2)).2.1) ∧
      ((L.foldl (classifyStep g lc) (u, i, n, f1)).2.2.1 =
        (L.foldl (classifyStep g lc) (u, i, n, f2)).2.2.1) := by
  induction L with
  | nil => intro u i n f1 f2; exact ⟨rfl, rfl, rfl⟩
  | cons x xs ih =>
    intro u i n f1 f2
    simp only [List.foldl_cons]
    unfold classifyStep
    by_cases h1 : (emptyVal (trimVal (cellVal g x 1)) && emptyVal (trimVal (cellVal g x 2)) &&
        emptyVal (trimVal (cellVal g x 3))) = true
    · simp only [h1, if_true]
      exact ih _ _ _ _ _
    · simp only [eq_false_of_ne_true h1, Bool.false_eq_true, if_false]
      by_cases h2 : (!emptyVal (trimVal (cellVal g x 1)) &&
          decide (trimVal (cellVal g x 1) = trimVal (cellVal g x 2)) &&
          decide (trimVal (cellVal g x 2) = trimVal (cellVal g x 3))) = true
      · simp only [h2, if_true]
        exact ih _ _ _ _ _
      · simp only [eq_false_of_ne_true h2, Bool.false_eq_true, if_false]
        by_cases h3 : (emptyVal (trimVal (cellVal g x 1)) || emptyVal (trimVal (cellVal g x 2)) ||
            emptyVal (trimVal (cellVal g x 3))) = true
        · simp only [h3, if_true]
          exact ih _ _ _ _ _
        · simp only [eq_false_of_ne_true h3, Bool.false_eq_true, if_false]
          exact ih _ _ _ _ _

/-- State whose ledger already holds an entry under `unusable_rows`. -/
def csPreloaded : SheetState :=
  ⟨[], [], [], ⟨[], [99], [], [], [], []⟩⟩

/-- C8 counterexample: the row classifier is NOT append-only.  It assigns
    freshly computed lists to its three ledger categories, so the entry 99
    present under `unusable_rows` before the call is gone afterwards. -/
theorem highlight_unusable_rows_discards_cex :
    csPreloaded.ledger.unusable_rows = [99] ∧
    (highlight_unusable_rows csPreloaded).1.ledger.unusable_rows = [] := by
  decide

/-- C8 (amended): the merge resolver, the header integrity checker and the row
    remover are append-only on the ledger — each returns the ledger with its
    own category extended at the end and every other category untouched, so
    every prior entry survives in its original position.  The row classifier
    instead OVERWRITES its three categories (`unusable_rows`,
    `incomplete_rows`, `node_header_rows`) with freshly computed lists that do
    not depend on the prior ledger or fills (prior entries under those three
    categories are discarded), while the other three categories pass through
    unchanged. -/
theorem ledger_append_only_amended (s : SheetState) :
    (∃ l, (unmerge_and_fill s).1.ledger =
      { s.ledger with merged_empty_cells := s.ledger.merged_empty_cells ++ l }) ∧
    (∃ l, (highlight_empty_cell s).1.ledger =
      { s.ledger with empty_cell_in_enm_version_row2 :=
          s.ledger.empty_cell_in_enm_version_row2 ++ l }) ∧
    (∃ l, (remove_node_header s).1.ledger =
      { s.ledger with removed_header_rows := s.ledger.removed_header_rows ++ l }) ∧
    ((highlight_unusable_rows s).1.ledger.merged_empty_cells = s.ledger.merged_empty_cells ∧
      (highlight_unusable_rows s).1.ledger.removed_header_rows =
        s.ledger.removed_header_rows ∧
      (highlight_unusable_rows s).1.ledger.empty_cell_in_enm_version_row2 =
        s.ledger.empty_cell_in_enm_version_row2) ∧
    (∀ s2 : SheetState, s2.grid = s.grid →
      (highlight_unusable_rows s2).1.ledger.unusable_rows =
        (highlight_unusable_rows s).1.ledger.unusable_rows ∧
      (highlight_unusable_rows s2).1.ledger.incomplete_rows =
        (highlight_unusable_rows s).1.ledger.incomplete_rows ∧
      (highlight_unusable_rows s2).1.ledger.node_header_rows =
        (highlight_unusable_rows s).1.ledger.node_header_rows) := by
  refine ⟨?_, ?_, ?_, ⟨rfl, rfl, rfl⟩, ?_⟩
  · exact foldl_processRange_ledger s.merges s
  · obtain ⟨lf, le, hh⟩ := hec_fold_append s.grid
      (List.range' 4 (get_last_col_with_value s.grid + 1 - 4)) s.fills
      s.ledger.empty_cell_in_enm_version_row2
    refine ⟨le, ?_⟩
    simp only [highlight_empty_cell, hh]
  · exact rnh_fold_ledger _ s
  · intro s2 hg
    simp only [highlight_unusable_rows, hg]
    have h := classify_fold_lists_independent s.grid (get_last_col_with_value s.grid)
      (List.range' 3 (get_last_row_with_value s.grid - 2)) [] [] [] s2.fills s.fills
    exact ⟨h.1, h.2.1, h.2.2⟩

/-- Witness for the amended C8 on a concrete preloaded state: prior entries of
    the untouched categories survive each component, and the classifier result
    does not depend on the prior ledger. -/
theorem ledger_append_only_amended_witness :
    (highlight_unusable_rows csPreloaded).1.ledger.removed_header_rows =
      csPreloaded.ledger.removed_header_rows ∧
    (highlight_unusable_rows csPreloaded).1.ledger.unusable_rows =
      (highlight_unusable_rows csPreloaded).1.ledger.unusable_rows := by
  have h := ledger_append_only_amended csPreloaded
  exact ⟨h.2.2.2.1.2.1, (h.2.2.2.2 csPreloaded rfl).1⟩

-- ------------------------------------------------------------------
-- Row classification partition (C4)
-- ------------------------------------------------------------------

/-- Some trimmed key value of the row is empty. -/
def someEmptyB (g : Grid) (r : Nat) : Bool :=
  emptyVal (trimVal (cellVal g r 1)) || emptyVal (trimVal (cellVal g r 2)) ||
    emptyVal (trimVal (cellVal g r 3))

/-- Partially empty: some, but not all, trimmed key values empty. -/
def partlyEmptyB (g : Grid) (r : Nat) : Bool :=
  someEmptyB g r && !allEmptyB g r

/-- Valid row: no trimmed key value empty and not all three equal. -/
def validB (g : Grid) (r : Nat) : Bool :=
  !someEmptyB g r &&
    !(decide (trimVal (cellVal g r 1) = trimVal (cellVal g r 2)) &&
      decide (trimVal (cellVal g r 2) = trimVal (cellVal g r 3)))

theorem classifyStep_eq (g : Grid) (lc : Nat)
    (acc : List Nat × List Nat × List Nat × List ((Nat × Nat) × Fill)) (r : Nat) :
    classifyStep g lc acc r =
      if allEmptyB g r then
        (acc.1 ++ [r], acc.2.1, acc.2.2.1, acc.2.2.2 ++ rowFillCells r lc Fill.lightRed)
      else if headerB g r then
        (acc.1, acc.2.1, acc.2.2.1 ++ [r], acc.2.2.2 ++ rowFillCells r lc Fill.lightRed)
      else if someEmptyB g r then
        (acc.1, acc.2.1 ++ [r], acc.2.2.1,
          acc.2.2.2 ++ rowFillCells r lc Fill.lightRed ++
            (([(1, trimVal (cellVal g r 1)), (2, trimVal (cellVal g r 2)),
                (3, trimVal (cellVal g r 3))].filter fun p => emptyVal p.2).map
              fun p => ((r, p.1), Fill.red)))
      else acc := by
  unfold classifyStep allEmptyB headerB someEmptyB
  rfl

theorem allEmptyB_someEmptyB (g : Grid) (r : Nat) (h : allEmptyB g r = true) :
    someEmptyB g r = true := by
  unfold allEmptyB at h
  unfold someEmptyB
  simp only [Bool.and_eq_true] at h
  simp [h.1.1]

theorem headerB_no_empty (g : Grid) (r : Nat) (h : headerB g r = true) :
    someEmptyB g r = false := by
  unfold headerB at h
  simp only [Bool.and_eq_true, Bool.not_eq_true', decide_eq_true_eq] at h
  obtain ⟨⟨he1, h12⟩, h23⟩ := h
  unfold someEmptyB
  rw [← h23, ← h12]
  simp [he1]

theorem partlyB_eq_partlyEmptyB (g : Grid) (r : Nat) :
    partlyB g r = partlyEmptyB g r := by
  by_cases hh : headerB g r = true
  · have hs := headerB_no_empty g r hh
    unfold partlyB partlyEmptyB someEmptyB
    unfold someEmptyB at hs
    rw [hs, hh]
    simp
  · have hh2 : headerB g r = false := eq_false_of_ne_true hh
    unfold partlyB partlyEmptyB someEmptyB
    rw [hh2]
    simp

theorem classify_fold_lists (g : Grid) (lc : Nat) (L : List Nat) :
    ∀ u i n f,
      (L.foldl (classifyStep g lc) (u, i, n, f)).1 = u ++ L.filter (allEmptyB g) ∧
      (L.foldl (classifyStep g lc) (u, i, n, f)).2.1 = i ++ L.filter (partlyB g) ∧
      (L.foldl (classifyStep g lc) (u, i, n, f)).2.2.1 = n ++ L.filter (headerB g) := by
  induction L with
  | nil => intro u i n f; simp
  | cons x xs ih =>
    intro u i n f
    simp only [List.foldl_cons, List.filter_cons, classifyStep_eq]
    by_cases h1 : allEmptyB g x = true
    · have hh : headerB g x = false := by
        by_cases hc : headerB g x = true
        · have := headerB_no_empty g x hc
          rw [allEmptyB_someEmptyB g x h1] at this
          cases this
        · exact eq_false_of_ne_true hc
      have hp : partlyB g x = false := by
        rw [partlyB_eq_partlyEmptyB]
        unfold partlyEmptyB
        simp [h1]
      simp only [h1, if_true, hh, hp, Bool.false_eq_true, if_false]
      obtain ⟨hu, hi, hn⟩ := ih (u ++ [x]) i n (f ++ rowFillCells x lc Fill.lightRed)
      exact ⟨by rw [hu]; simp, hi, hn⟩
    · have h1f : allEmptyB g x = false := eq_false_of_ne_true h1
      simp only [h1f, Bool.false_eq_true, if_false]
      by_cases h2 : headerB g x = true
      · have hp : partlyB g x = false := by
          rw [partlyB_eq_partlyEmptyB]
          unfold partlyEmptyB
          simp [headerB_no_empty g x h2]
        simp only [h2, if_true, hp, Bool.false_eq_true, if_false]
        obtain ⟨hu, hi, hn⟩ := ih u i (n ++ [x]) (f ++ rowFillCells x lc Fill.lightRed)
        exact ⟨hu, hi, by rw [hn]; simp⟩
      · have h2f : headerB g x = false := eq_false_of_ne_true h2
        simp only [h2f, Bool.false_eq_true, if_false]
        by_cases h3 : someEmptyB g x = true
        · have hp : partlyB g x = true := by
            rw [partlyB_eq_partlyEmptyB]
            unfold partlyEmptyB
            simp [h3, h1f]
          simp only [h3, if_true, hp]
          obtain ⟨hu, hi, hn⟩ := ih u (i ++ [x]) n _
          exact ⟨hu, by rw [hi]; simp, hn⟩
        · have h3f : someEmptyB g x = false := eq_false_of_ne_true h3
          have hp : partlyB g x = false := by
            rw [partlyB_eq_partlyEmptyB]
            unfold partlyEmptyB
            simp [h3f]
          simp only [h3f, Bool.false_eq_true, if_false, hp]
          exact ih u i n f

/-- C4: on the trimmed values of columns 1-3, every data row in
    `3 .. last_row` satisfies exactly one of the four categories (all-empty,
    all-equal-non-empty, partially-empty, valid), and the classifier assigns
    the row to `unusable_rows`, `node_header_rows`, `incomplete_rows`
    respectively exactly according to that partition (a valid row lands in no
    category, by the three equivalences and exclusivity). -/
theorem highlight_unusable_rows_partition (s : SheetState) (r : Nat)
    (h3 : 3 ≤ r) (hlr : r ≤ get_last_row_with_value s.grid) :
    (allEmptyB s.grid r = true ∨ headerB s.grid r = true ∨
      partlyEmptyB s.grid r = true ∨ validB s.grid r = true) ∧
    ¬(allEmptyB s.grid r = true ∧ headerB s.grid r = true) ∧
    ¬(allEmptyB s.grid r = true ∧ partlyEmptyB s.grid r = true) ∧
    ¬(allEmptyB s.grid r = true ∧ validB s.grid r = true) ∧
    ¬(headerB s.grid r = true ∧ partlyEmptyB s.grid r = true) ∧
    ¬(headerB s.grid r = true ∧ validB s.grid r = true) ∧
    ¬(partlyEmptyB s.grid r = true ∧ validB s.grid r = true) ∧
    (r ∈ (highlight_unusable_rows s).1.ledger.unusable_rows ↔ allEmptyB s.grid r = true) ∧
    (r ∈ (highlight_unusable_rows s).1.ledger.node_header_rows ↔ headerB s.grid r = true) ∧
    (r ∈ (highlight_unusable_rows s).1.ledger.incomplete_rows ↔ partlyEmptyB s.grid r = true) := by
  have hlists := classify_fold_lists s.grid (get_last_col_with_value s.grid)
    (List.range' 3 (get_last_row_with_value s.grid - 2)) [] [] [] s.fills
  have hmemrange : r ∈ List.range' 3 (get_last_row_with_value s.grid - 2) :=
    List.mem_range'_1.mpr ⟨h3, by omega⟩
  have hu : (highlight_unusable_rows s).1.ledger.unusable_rows =
      (List.range' 3 (get_last_row_with_value s.grid - 2)).filter (allEmptyB s.grid) := by
    show ((List.range' 3 (get_last_row_with_value s.grid - 2)).foldl
      (classifyStep s.grid (get_last_col_with_value s.grid)) ([], [], [], s.fills)).1 = _
    rw [hlists.1]
    simp
  have hi : (highlight_unusable_rows s).1.ledger.incomplete_rows =
      (List.range' 3 (get_last_row_with_value s.grid - 2)).filter (partlyB s.grid) := by
    show ((List.range' 3 (get_last_row_with_value s.grid - 2)).foldl
      (classifyStep s.grid (get_last_col_with_value s.grid)) ([], [], [], s.fills)).2.1 = _
    rw [hlists.2.1]
    simp
  have hn : (highlight_unusable_rows s).1.ledger.node_header_rows =
      (List.range' 3 (get_last_row_with_value s.grid - 2)).filter (headerB s.grid) := by
    show ((List.range' 3 (get_last_row_with_value s.grid - 2)).foldl
      (classifyStep s.grid (get_last_col_with_value s.grid)) ([], [], [], s.fills)).2.2.1 = _
    rw [hlists.2.2]
    simp
  have hiffu : r ∈ (highlight_unusable_rows s).1.ledger.unusable_rows ↔
      allEmptyB s.grid r = true := by
    rw [hu, List.mem_filter]
    simp [hmemrange]
  have hiffn : r ∈ (highlight_unusable_rows s).1.ledger.node_header_rows ↔
      headerB s.grid r = true := by
    rw [hn, List.mem_filter]
    simp [hmemrange]
  have hiffi : r ∈ (highlight_unusable_rows s).1.ledger.incomplete_rows ↔
      partlyEmptyB s.grid r = true := by
    rw [hi, List.mem_filter, partlyB_eq_partlyEmptyB]
    simp [hmemrange]
  refine ⟨?_, ?_, ?_, ?_, ?_, ?_, ?_, hiffu, hiffn, hiffi⟩
  · by_cases hae : allEmptyB s.grid r = true
    · exact Or.inl hae
    · by_cases hh : headerB s.grid r = true
      · exact Or.inr (Or.inl hh)
      · by_cases hse : someEmptyB s.grid r = true
        · refine Or.inr (Or.inr (Or.inl ?_))
          unfold partlyEmptyB
          simp [hse, eq_false_of_ne_true hae]
        · refine Or.inr (Or.inr (Or.inr ?_))
          unfold validB
          have hse2 : someEmptyB s.grid r = false := eq_false_of_ne_true hse
          have he1 : emptyVal (trimVal (cellVal s.grid r 1)) = false := by
            unfold someEmptyB at hse2
            simp only [Bool.or_eq_false_iff] at hse2
            exact hse2.1.1
          have hnoeq : (decide (trimVal (cellVal s.grid r 1) = trimVal (cellVal s.grid r 2)) &&
              decide (trimVal (cellVal s.grid r 2) = trimVal (cellVal s.grid r 3))) = false := by
            by_cases hq : (decide (trimVal (cellVal s.grid r 1) = trimVal (cellVal s.grid r 2)) &&
                decide (trimVal (cellVal s.grid r 2) = trimVal (cellVal s.grid r 3))) = true
            · exfalso
              apply hh
              unfold headerB
              rw [he1]
              simp only [Bool.not_false, Bool.true_and]
              exact hq
            · exact eq_false_of_ne_true hq
          rw [hse2, hnoeq]
          rfl
  · intro ⟨hae, hh⟩
    have := headerB_no_empty s.grid r hh
    rw [allEmptyB_someEmptyB s.grid r hae] at this
    cases this
  · intro ⟨hae, hp⟩
    unfold partlyEmptyB at hp
    rw [hae] at hp
    simp at hp
  · intro ⟨hae, hv⟩
    unfold validB at hv
    rw [allEmptyB_someEmptyB s.grid r hae] at hv
    simp at hv
  · intro ⟨hh, hp⟩
    unfold partlyEmptyB at hp
    rw [headerB_no_empty s.grid r hh] at hp
    simp at hp
  · intro ⟨hh, hv⟩
    unfold validB at hv
    unfold headerB at hh
    simp only [Bool.and_eq_true] at hh
    rw [hh.1.2, hh.2] at hv
    simp at hv
  · intro ⟨hp, hv⟩
    unfold partlyEmptyB at hp
    unfold validB at hv
    simp only [Bool.and_eq_true, Bool.not_eq_true'] at hp hv
    rw [hp.1] at hv
    simp at hv

/-- Grid with one row of each category: row 3 all-empty, row 4 all-equal
    header, row 5 partially empty, row 6 valid. -/
def csClassify : SheetState :=
  ⟨[[some "h1", some "h2", some "h3", some "h4", some "h5"],
    [none, none, none, some "v", some "c"],
    [none, none, none, some "q", some "w"],
    [some "x", some "x", some "x", some "q", some "w"],
    [some "a", none, some "r", some "q", some "w"],
    [some "a", some "b", some "r", some "q", some "w"]], [], [], emptyLedger⟩

/-- Witness for C4 on `csClassify`: each category receives exactly its row. -/
theorem highlight_unusable_rows_partition_witness :
    3 ∈ (highlight_unusable_rows csClassify).1.ledger.unusable_rows ∧
    4 ∈ (highlight_unusable_rows csClassify).1.ledger.node_header_rows ∧
    5 ∈ (highlight_unusable_rows csClassify).1.ledger.incomplete_rows ∧
    validB csClassify.grid 6 = true := by
  have p3 := highlight_unusable_rows_partition csClassify 3 (by decide) (by decide)
  have p4 := highlight_unusable_rows_partition csClassify 4 (by decide) (by decide)
  have p5 := highlight_unusable_rows_partition csClassify 5 (by decide) (by decide)
  refine ⟨p3.2.2.2.2.2.2.2.1.mpr (by decide), p4.2.2.2.2.2.2.2.2.1.mpr (by decide),
    p5.2.2.2.2.2.2.2.2.2.mpr (by decide), by decide⟩

-- ------------------------------------------------------------------
-- Cell-write lemmas for the merge resolver (C3)
-- ------------------------------------------------------------------

theorem length_setCell (g : Grid) (r c : Nat) (v : CellValue) :
    (setCell g r c v).length = g.length := by
  unfold setCell
  split
  · rfl
  · cases hg : g[r - 1]? with
    | none => rfl
    | some row => simp

theorem rowCells_length_setCell (g : Grid) (r c : Nat) (v : CellValue) (r2 : Nat) :
    (rowCells (setCell g r c v) r2).length = (rowCells g r2).length := by
  unfold setCell
  split
  · rfl
  · cases hg : g[r - 1]? with
    | none => rfl
    | some row =>
      unfold rowCells
      by_cases hr2 : r2 = 0
      · simp [hr2]
      · simp only [hr2, if_false]
        by_cases he : r - 1 = r2 - 1
        · rw [← he]
          have hlt : r - 1 < g.length := (List.getElem?_eq_some_iff.mp hg).1
          rw [List.getElem?_set_self hlt, hg]
          simp
        · rw [List.getElem?_set_ne he]

theorem cellVal_setCell_self (g : Grid) (r c : Nat) (v : CellValue)
    (hr : 1 ≤ r) (hrl : r ≤ g.length) (hc : 1 ≤ c) (hcl : c ≤ (rowCells g r).length) :
    cellVal (setCell g r c v) r c = v := by
  have hr0 : r ≠ 0 := by omega
  have hc0 : c ≠ 0 := by omega
  have hlt : r - 1 < g.length := by omega
  obtain ⟨row, hrow⟩ : ∃ row, g[r - 1]? = some row := by
    cases hg : g[r - 1]? with
    | none =>
      exfalso
      have := List.getElem?_eq_none_iff.mp hg
      omega
    | some row => exact ⟨row, rfl⟩
  have hrowlen : (rowCells g r).length = row.length := by
    unfold rowCells
    simp [hr0, hrow]
  have hset : setCell g r c v = g.set (r - 1) (row.set (c - 1) v) := by
    simp [setCell, hr0, hc0, hrow]
  rw [hset]
  unfold cellVal rowCells
  simp only [hc0, hr0, if_false]
  rw [List.getElem?_set_self hlt]
  simp only [Option.getD_some]
  have hclt : c - 1 < row.length := by omega
  rw [List.getElem?_set_self hclt]
  simp

theorem cellVal_setCell_other (g : Grid) (r c : Nat) (v : CellValue) (r2 c2 : Nat)
    (h : ¬(r = r2 ∧ c = c2)) (hr2 : 1 ≤ r2) (hc2 : 1 ≤ c2) :
    cellVal (setCell g r c v) r2 c2 = cellVal g r2 c2 := by
  unfold setCell
  split
  · rfl
  · rename_i hguard
    have hr0 : r ≠ 0 := by
      intro hc0
      apply hguard
      simp [hc0]
    have hc0 : c ≠ 0 := by
      intro hcc
      apply hguard
      simp [hcc]
    cases hg : g[r - 1]? with
    | none => rfl
    | some row =>
      unfold cellVal rowCells
      have hr20 : r2 ≠ 0 := by omega
      have hc20 : c2 ≠ 0 := by omega
      simp only [hr20, hc20, if_false]
      by_cases hre : r = r2
      · subst hre
        have hce : c ≠ c2 := fun hcc => h ⟨rfl, hcc⟩
        have hlt : r - 1 < g.length := (List.getElem?_eq_some_iff.mp hg).1
        rw [List.getElem?_set_self hlt, hg]
        simp only [Option.getD_some]
        have hne : c - 1 ≠ c2 - 1 := by omega
        rw [List.getElem?_set_ne hne]
      · have hne : r - 1 ≠ r2 - 1 := by omega
        rw [List.getElem?_set_ne hne]

theorem length_writeList (v : String) (L : List (Nat × Nat)) :
    ∀ g : Grid, (L.foldl (fun acc rc => setCell acc rc.1 rc.2 (some v)) g).length = g.length := by
  induction L with
  | nil => intro g; rfl
  | cons x xs ih =>
    intro g
    simp only [List.foldl_cons]
    rw [ih, length_setCell]

theorem rowCells_length_writeList (v : String) (L : List (Nat × Nat)) :
    ∀ (g : Grid) (r2 : Nat),
      (rowCells (L.foldl (fun acc rc => setCell acc rc.1 rc.2 (some v)) g) r2).length =
        (rowCells g r2).length := by
  induction L with
  | nil => intro g r2; rfl
  | cons x xs ih =>
    intro g r2
    simp only [List.foldl_cons]
    rw [ih, rowCells_length_setCell]

theorem cellVal_writeList_not_mem (v : String) (L : List (Nat × Nat)) :
    ∀ (g : Grid) (r2 c2 : Nat), 1 ≤ r2 → 1 ≤ c2 → (r2, c2) ∉ L →
      cellVal (L.foldl (fun acc rc => setCell acc rc.1 rc.2 (some v)) g) r2 c2 =
        cellVal g r2 c2 := by
  induction L with
  | nil => intro g r2 c2 _ _ _; rfl
  | cons x xs ih =>
    intro g r2 c2 hr2 hc2 hnm
    simp only [List.foldl_cons]
    rw [ih _ _ _ hr2 hc2 (fun hmem => hnm (List.mem_cons_of_mem _ hmem))]
    apply cellVal_setCell_other
    · intro ⟨h1, h2⟩
      apply hnm
      have : x = (r2, c2) := by
        obtain ⟨a, b⟩ := x
        simp only at h1 h2
        rw [h1, h2]
      rw [this]
      exact List.mem_cons_self _ _
    · exact hr2
    · exact hc2

theorem cellVal_writeList_mem (v : String) (L : List (Nat × Nat)) :
    ∀ (g : Grid) (r2 c2 : Nat),
      (∀ rc ∈ L, 1 ≤ rc.1 ∧ rc.1 ≤ g.length ∧ 1 ≤ rc.2 ∧ rc.2 ≤ (rowCells g rc.1).length) →
      (r2, c2) ∈ L →
      cellVal (L.foldl (fun acc rc => setCell acc rc.1 rc.2 (some v)) g) r2 c2 = some v := by
  induction L with
  | nil => intro g r2 c2 _ hm; cases hm
  | cons x xs ih =>
    intro g r2 c2 hb hm
    simp only [List.foldl_cons]
    have hshape : ∀ rc ∈ xs, 1 ≤ rc.1 ∧ rc.1 ≤ (setCell g x.1 x.2 (some v)).length ∧
        1 ≤ rc.2 ∧ rc.2 ≤ (rowCells (setCell g x.1 x.2 (some v)) rc.1).length := by
      intro rc hrc
      have := hb rc (List.mem_cons_of_mem _ hrc)
      rw [length_setCell, rowCells_length_setCell]
      exact this
    by_cases hxs : (r2, c2) ∈ xs
    · exact ih _ _ _ hshape hxs
    · have hx : x = (r2, c2) := by
        rcases List.mem_cons.mp hm with h | h
        · exact h.symm
        · exact absurd h hxs
      subst hx
      obtain ⟨h1, h2, h3, h4⟩ := hb (r2, c2) (List.mem_cons_self _ _)
      rw [cellVal_writeList_not_mem v xs _ _ _ h1 h3 hxs]
      exact cellVal_setCell_self g r2 c2 (some v) h1 h2 h3 h4

theorem mem_regionCells (mr : MRange) (p : Nat × Nat) :
    p ∈ regionCells mr ↔
      (mr.minRow ≤ p.1 ∧ p.1 ≤ mr.maxRow ∧ mr.minCol ≤ p.2 ∧ p.2 ≤ mr.maxCol) := by
  unfold regionCells
  rw [List.mem_flatMap]
  constructor
  · intro ⟨r, hr, hp⟩
    rw [List.mem_map] at hp
    obtain ⟨c, hc, hpc⟩ := hp
    have hr2 := List.mem_range'_1.mp hr
    have hc2 := List.mem_range'_1.mp hc
    rw [← hpc]
    refine ⟨by omega, by omega, by omega, by omega⟩
  · intro ⟨h1, h2, h3, h4⟩
    refine ⟨p.1, List.mem_range'_1.mpr ⟨h1, by omega⟩, ?_⟩
    rw [List.mem_map]
    exact ⟨p.2, List.mem_range'_1.mpr ⟨h3, by omega⟩, rfl⟩

theorem inRegion_iff (mr : MRange) (r c : Nat) :
    inRegion mr r c = true ↔
      (mr.minRow ≤ r ∧ r ≤ mr.maxRow ∧ mr.minCol ≤ c ∧ c ≤ mr.maxCol) := by
  unfold inRegion
  simp [and_assoc]

theorem disjoint_not_inRegion (mr x : MRange) (r c : Nat)
    (hd : disjointRegions mr x = true) (hin : inRegion mr r c = true) :
    inRegion x r c = false := by
  unfold disjointRegions at hd
  rw [inRegion_iff] at hin
  simp only [Bool.or_eq_true, decide_eq_true_eq] at hd
  by_cases hx : inRegion x r c = true
  · rw [inRegion_iff] at hx
    exfalso
    omega
  · exact eq_false_of_ne_true hx

theorem processRange_grid_none (s : SheetState) (mr : MRange)
    (h : cellVal s.grid mr.minRow mr.minCol = none) :
    (processRange s mr).grid = s.grid := by
  unfold processRange
  rw [h]

theorem processRange_grid_some (s : SheetState) (mr : MRange) (v : String)
    (h : cellVal s.grid mr.minRow mr.minCol = some v) :
    (processRange s mr).grid = writeRegion s.grid mr v := by
  unfold processRange
  rw [h]

theorem processRange_shape (s : SheetState) (mr : MRange) :
    (processRange s mr).grid.length = s.grid.length ∧
      ∀ r, (rowCells (processRange s mr).grid r).length = (rowCells s.grid r).length := by
  unfold processRange
  cases cellVal s.grid mr.minRow mr.minCol with
  | none => exact ⟨rfl, fun r => rfl⟩
  | some v =>
    refine ⟨length_writeList v (regionCells mr) s.grid,
      fun r => rowCells_length_writeList v (regionCells mr) s.grid r⟩

theorem processRange_outside (s : SheetState) (x : MRange) (r c : Nat)
    (hr : 1 ≤ r) (hc : 1 ≤ c) (hout : inRegion x r c = false) :
    cellVal (processRange s x).grid r c = cellVal s.grid r c := by
  unfold processRange
  cases hv : cellVal s.grid x.minRow x.minCol with
  | none => rfl
  | some v =>
    show cellVal (writeRegion s.grid x v) r c = _
    unfold writeRegion
    apply cellVal_writeList_not_mem v _ _ _ _ hr hc
    intro hmem
    rw [mem_regionCells] at hmem
    have htrue : inRegion x r c = true := by
      rw [inRegion_iff]
      exact hmem
    rw [hout] at htrue
    cases htrue

theorem regionInBounds_shape (g1 g2 : Grid) (mr : MRange)
    (h1 : g1.length = g2.length)
    (h2 : ∀ r, (rowCells g1 r).length = (rowCells g2 r).length)
    (hb : regionInBounds g2 mr = true) : regionInBounds g1 mr = true := by
  unfold regionInBounds at hb ⊢
  rw [List.all_eq_true] at hb ⊢
  intro rc hrc
  have := hb rc hrc
  simp only [Bool.and_eq_true, decide_eq_true_eq] at this ⊢
  rw [h1, h2]
  exact this

theorem regionInBounds_cells (g : Grid) (mr : MRange)
    (hwf : 1 ≤ mr.minRow ∧ mr.minRow ≤ mr.maxRow ∧ 1 ≤ mr.minCol ∧ mr.minCol ≤ mr.maxCol)
    (hb : regionInBounds g mr = true) :
    ∀ rc ∈ regionCells mr,
      1 ≤ rc.1 ∧ rc.1 ≤ g.length ∧ 1 ≤ rc.2 ∧ rc.2 ≤ (rowCells g rc.1).length := by
  intro rc hrc
  unfold regionInBounds at hb
  rw [List.all_eq_true] at hb
  have hbb := hb rc hrc
  simp only [Bool.and_eq_true, decide_eq_true_eq] at hbb
  rw [mem_regionCells] at hrc
  exact ⟨by omega, hbb.1, by omega, hbb.2⟩

theorem fold_preserve_none (mr : MRange) (L : List MRange) :
    ∀ s : SheetState,
      (1 ≤ mr.minRow ∧ mr.minRow ≤ mr.maxRow ∧ 1 ≤ mr.minCol ∧ mr.minCol ≤ mr.maxCol) →
      (∀ x ∈ L, x = mr ∨ disjointRegions mr x = true) →
      cellVal s.grid mr.minRow mr.minCol = none →
      ∀ r c, inRegion mr r c = true →
        cellVal ((L.foldl processRange s)).grid r c = cellVal s.grid r c := by
  induction L with
  | nil => intro s _ _ _ r c _; rfl
  | cons x xs ih =>
    intro s hwf hdis hanchor r c hin
    simp only [List.foldl_cons]
    have hanchorin : inRegion mr mr.minRow mr.minCol = true := by
      rw [inRegion_iff]
      omega
    rcases hdis x (List.mem_cons_self _ _) with hx | hx
    · subst hx
      have hgrid : (processRange s x).grid = s.grid := processRange_grid_none s x hanchor
      have hres := ih (processRange s x) hwf
        (fun y hy => hdis y (List.mem_cons_of_mem _ hy)) (by rw [hgrid]; exact hanchor) r c hin
      rw [hres, hgrid]
    · have hrc : 1 ≤ r ∧ 1 ≤ c := by
        rw [inRegion_iff] at hin
        omega
      have hcell : cellVal (processRange s x).grid r c = cellVal s.grid r c :=
        processRange_outside s x r c hrc.1 hrc.2 (disjoint_not_inRegion mr x r c hx hin)
      have hanchor2 : cellVal (processRange s x).grid mr.minRow mr.minCol = none := by
        rw [processRange_outside s x mr.minRow mr.minCol (by omega) (by omega)
          (disjoint_not_inRegion mr x mr.minRow mr.minCol hx hanchorin)]
        exact hanchor
      have hres := ih (processRange s x) hwf
        (fun y hy => hdis y (List.mem_cons_of_mem _ hy)) hanchor2 r c hin
      rw [hres, hcell]

theorem fold_preserve_some (mr : MRange) (v : String) (L : List MRange) :
    ∀ s : SheetState,
      (1 ≤ mr.minRow ∧ mr.minRow ≤ mr.maxRow ∧ 1 ≤ mr.minCol ∧ mr.minCol ≤ mr.maxCol) →
      (∀ x ∈ L, x = mr ∨ disjointRegions mr x = true) →
      regionInBounds s.grid mr = true →
      (∀ r c, inRegion mr r c = true → cellVal s.grid r c = some v) →
      ∀ r c, inRegion mr r c = true →
        cellVal ((L.foldl processRange s)).grid r c = some v := by
  induction L with
  | nil => intro s _ _ _ hall r c hin; exact hall r c hin
  | cons x xs ih =>
    intro s hwf hdis hb hall r c hin
    simp only [List.foldl_cons]
    have hanchorin : inRegion mr mr.minRow mr.minCol = true := by
      rw [inRegion_iff]
      omega
    have hshape := processRange_shape s x
    have hb2 : regionInBounds (processRange s x).grid mr = true :=
      regionInBounds_shape _ _ _ hshape.1 hshape.2 hb
    rcases hdis x (List.mem_cons_self _ _) with hx | hx
    · subst hx
      have hanchor : cellVal s.grid x.minRow x.minCol = some v := hall _ _ hanchorin
      have hgrid : (processRange s x).grid = writeRegion s.grid x v :=
        processRange_grid_some s x v hanchor
      have hall2 : ∀ r2 c2, inRegion x r2 c2 = true →
          cellVal (processRange s x).grid r2 c2 = some v := by
        intro r2 c2 hin2
        rw [hgrid]
        unfold writeRegion
        apply cellVal_writeList_mem v _ _ _ _ (regionInBounds_cells s.grid x hwf hb)
        rw [mem_regionCells]
        rw [inRegion_iff] at hin2
        exact hin2
      exact ih (processRange s x) hwf (fun y hy => hdis y (List.mem_cons_of_mem _ hy))
        hb2 hall2 r c hin
    · have hall2 : ∀ r2 c2, inRegion mr r2 c2 = true →
          cellVal (processRange s x).grid r2 c2 = some v := by
        intro r2 c2 hin2
        have hrc : 1 ≤ r2 ∧ 1 ≤ c2 := by
          rw [inRegion_iff] at hin2
          omega
        rw [processRange_outside s x r2 c2 hrc.1 hrc.2
          (disjoint_not_inRegion mr x r2 c2 hx hin2)]
        exact hall r2 c2 hin2
      exact ih (processRange s x) hwf (fun y hy => hdis y (List.mem_cons_of_mem _ hy))
        hb2 hall2 r c hin

theorem fold_processRange_propagation (L : List MRange) :
    ∀ (s : SheetState) (mr : MRange),
      mr ∈ L →
      (1 ≤ mr.minRow ∧ mr.minRow ≤ mr.maxRow ∧ 1 ≤ mr.minCol ∧ mr.minCol ≤ mr.maxCol) →
      (∀ x ∈ L, x = mr ∨ disjointRegions mr x = true) →
      regionInBounds s.grid mr = true →
      (∀ v, cellVal s.grid mr.minRow mr.minCol = some v →
        ∀ r c, inRegion mr r c = true →
          cellVal ((L.foldl processRange s)).grid r c = some v) ∧
      (cellVal s.grid mr.minRow mr.minCol = none →
        mr ∈ (L.foldl processRange s).ledger.merged_empty_cells ∧
        ∀ r c, inRegion mr r c = true →
          ((r, c), Fill.red) ∈ (L.foldl processRange s).fills ∧
          cellVal ((L.foldl processRange s)).grid r c = cellVal s.grid r c) := by
  induction L with
  | nil => intro s mr hmem; cases hmem
  | cons x xs ih =>
    intro s mr hmem hwf hdis hb
    have hanchorin : inRegion mr mr.minRow mr.minCol = true := by
      rw [inRegion_iff]
      omega
    have hshape := processRange_shape s x
    have hb2 : regionInBounds (processRange s x).grid mr = true :=
      regionInBounds_shape _ _ _ hshape.1 hshape.2 hb
    have hdisxs : ∀ y ∈ xs, y = mr ∨ disjointRegions mr y = true :=
      fun y hy => hdis y (List.mem_cons_of_mem _ hy)
    constructor
    · intro v hanchor r c hin
      simp only [List.foldl_cons]
      rcases hdis x (List.mem_cons_self _ _) with hx | hx
      · subst hx
        have hgrid : (processRange s x).grid = writeRegion s.grid x v :=
          processRange_grid_some s x v hanchor
        have hall2 : ∀ r2 c2, inRegion x r2 c2 = true →
            cellVal (processRange s x).grid r2 c2 = some v := by
          intro r2 c2 hin2
          rw [hgrid]
          unfold writeRegion
          apply cellVal_writeList_mem v _ _ _ _ (regionInBounds_cells s.grid x hwf hb)
          rw [mem_regionCells]
          rw [inRegion_iff] at hin2
          exact hin2
        exact fold_preserve_some x v xs (processRange s x) hwf hdisxs hb2 hall2 r c hin
      · have hall2 : ∀ r2 c2, inRegion mr r2 c2 = true →
            cellVal (processRange s x).grid r2 c2 = cellVal s.grid r2 c2 := by
          intro r2 c2 hin2
          have hrc : 1 ≤ r2 ∧ 1 ≤ c2 := by
            rw [inRegion_iff] at hin2
            omega
          exact processRange_outside s x r2 c2 hrc.1 hrc.2
            (disjoint_not_inRegion mr x r2 c2 hx hin2)
        have hmem2 : mr ∈ xs := by
          rcases List.mem_cons.mp hmem with h | h
          · exfalso
            subst h
            unfold disjointRegions at hx
            simp only [Bool.or_eq_true, decide_eq_true_eq] at hx
            omega
          · exact h
        have hanchor2 : cellVal (processRange s x).grid mr.minRow mr.minCol = some v := by
          rw [hall2 _ _ hanchorin]
          exact hanchor
        exact (ih (processRange s x) mr hmem2 hwf hdisxs hb2).1 v hanchor2 r c hin
    · intro hanchor
      simp only [List.foldl_cons]
      rcases hdis x (List.mem_cons_self _ _) with hx | hx
      · subst hx
        have hgrid : (processRange s x).grid = s.grid := processRange_grid_none s x hanchor
        have hledger1 : x ∈ (processRange s x).ledger.merged_empty_cells := by
          unfold processRange
          rw [hanchor]
          simp
        have hfills1 : ∀ r c, inRegion x r c = true →
            ((r, c), Fill.red) ∈ (processRange s x).fills := by
          intro r c hin
          unfold processRange
          rw [hanchor]
          simp only [List.mem_append, List.mem_map]
          right
          refine ⟨(r, c), ?_, rfl⟩
          rw [mem_regionCells]
          rw [inRegion_iff] at hin
          exact hin
        obtain ⟨lled, hled⟩ := foldl_processRange_ledger xs (processRange s x)
        obtain ⟨lfl, hfl⟩ := foldl_processRange_fills xs (processRange s x)
        refine ⟨?_, ?_⟩
        · rw [hled]
          simp only [List.mem_append]
          exact Or.inl hledger1
        · intro r c hin
          refine ⟨?_, ?_⟩
          · rw [hfl]
            simp only [List.mem_append]
            exact Or.inl (hfills1 r c hin)
          · have := fold_preserve_none x xs (processRange s x) hwf hdisxs
              (by rw [hgrid]; exact hanchor) r c hin
            rw [this, hgrid]
      · have hall2 : ∀ r2 c2, inRegion mr r2 c2 = true →
            cellVal (processRange s x).grid r2 c2 = cellVal s.grid r2 c2 := by
          intro r2 c2 hin2
          have hrc : 1 ≤ r2 ∧ 1 ≤ c2 := by
            rw [inRegion_iff] at hin2
            omega
          exact processRange_outside s x r2 c2 hrc.1 hrc.2
            (disjoint_not_inRegion mr x r2 c2 hx hin2)
        have hmem2 : mr ∈ xs := by
          rcases List.mem_cons.mp hmem with h | h
          · exfalso
            subst h
            unfold disjointRegions at hx
            simp only [Bool.or_eq_true, decide_eq_true_eq] at hx
            omega
          · exact h
        have hanchor2 : cellVal (processRange s x).grid mr.minRow mr.minCol = none := by
          rw [hall2 _ _ hanchorin]
          exact hanchor
        obtain ⟨hledmem, hcells⟩ :=
          (ih (processRange s x) mr hmem2 hwf hdisxs hb2).2 hanchor2
        refine ⟨hledmem, ?_⟩
        intro r c hin
        obtain ⟨hf, hc⟩ := hcells r c hin
        exact ⟨hf, by rw [hc, hall2 r c hin]⟩

/-- C3 (amended): for a merged region of a well-formed, in-bounds, pairwise
    disjoint snapshot: when the anchor value is not `None` (including the empty
    or whitespace-only string), after resolution every cell of the region holds
    the anchor value; when the anchor value is `None`, the region is recorded
    under `merged_empty_cells`, every cell of the region receives the
    empty-merge highlight, and no cell of the region holds a derived value
    (their values are unchanged).  The source tests `cell_value is None`, so
    `None` — not blank-after-trimming — is the notion of empty anchor it
    implements. -/
theorem unmerge_and_fill_propagation (s : SheetState) (mr : MRange)
    (hmem : mr ∈ s.merges)
    (hwf : 1 ≤ mr.minRow ∧ mr.minRow ≤ mr.maxRow ∧ 1 ≤ mr.minCol ∧ mr.minCol ≤ mr.maxCol)
    (hdis : ∀ x ∈ s.merges, x = mr ∨ disjointRegions mr x = true)
    (hbounds : regionInBounds s.grid mr = true) :
    (∀ v, cellVal s.grid mr.minRow mr.minCol = some v →
      ∀ r c, inRegion mr r c = true →
        cellVal (unmerge_and_fill s).1.grid r c = some v) ∧
    (cellVal s.grid mr.minRow mr.minCol = none →
      mr ∈ (unmerge_and_fill s).1.ledger.merged_empty_cells ∧
      ∀ r c, inRegion mr r c = true →
        ((r, c), Fill.red) ∈ (unmerge_and_fill s).1.fills ∧
        cellVal (unmerge_and_fill s).1.grid r c = cellVal s.grid r c) :=
  fold_processRange_propagation s.merges s mr hmem hwf hdis hbounds

/-- Two disjoint merged regions: `(1,1)-(1,2)` with anchor `A`, and
    `(2,1)-(2,3)` with anchor `None`. -/
def csMerged : SheetState :=
  ⟨[[some "A", none, none], [none, none, none]],
   [⟨1, 1, 1, 2⟩, ⟨2, 1, 2, 3⟩], [], emptyLedger⟩

/-- Witness for the amended C3 on `csMerged`: the `A` anchor is broadcast to
    its region, while the `None`-anchored region is recorded, its cells are
    flagged red, and the cell values there are unchanged. -/
theorem unmerge_and_fill_propagation_witness :
    cellVal (unmerge_and_fill csMerged).1.grid 1 2 = some "A" ∧
    (⟨2, 1, 2, 3⟩ : MRange) ∈ (unmerge_and_fill csMerged).1.ledger.merged_empty_cells ∧
    ((2, 3), Fill.red) ∈ (unmerge_and_fill csMerged).1.fills ∧
    cellVal (unmerge_and_fill csMerged).1.grid 2 3 = cellVal csMerged.grid 2 3 := by
  have h1 := unmerge_and_fill_propagation csMerged ⟨1, 1, 1, 2⟩
    (by decide) (by decide) (by decide) (by decide)
  have h2 := unmerge_and_fill_propagation csMerged ⟨2, 1, 2, 3⟩
    (by decide) (by decide) (by decide) (by decide)
  refine ⟨h1.1 "A" (by decide) 1 2 (by decide), (h2.2 (by decide)).1,
    ((h2.2 (by decide)).2 2 3 (by decide)).1, ((h2.2 (by decide)).2 2 3 (by decide)).2⟩
